import Mathlib

/-!
# MacInventory core — shallow embedding and verification

This file embeds the discovery-merge and backup pipeline of the
MacInventory repository (`macinventory/python/...`) in Lean 4 and proves
properties of the embedded code.

Conventions used throughout:
* POSIX paths are modelled structurally (`PPath`): an absolute flag plus
  the list of components, mirroring `pathlib.PurePosixPath` (empty and
  `.` components dropped, `..` kept).
* Filesystem reads (existence, file kind, size, directory listings,
  symlink resolution) are supplied by an oracle record `Env`; filesystem
  mutations are recorded as an explicit list of operations `FSOp`.
* Python's `re` engine is abstracted: a compiled redaction rule carries
  the span list `finditer` would produce and the template expansion
  `sub` would apply to each match; `filter_content` is embedded over
  that interface exactly as the source iterates it.
* Machine floats appear only in the file-size comparison
  `st_size / (1024*1024) > max_mb`; for the sizes involved the Python
  `float` comparison agrees with the exact rational one, which is what
  we use (`ℚ`).
-/

namespace MacInventory

/-! ## Basic string/list helpers (Python `str` operations) -/

/-- Python's `pat in s` substring test, over character lists. -/
def hasInfix (pat : List Char) : List Char → Bool
  | [] => pat.isPrefixOf []
  | c :: t => pat.isPrefixOf (c :: t) || hasInfix pat t


/-- `str.lower()` over the character data (`Char.toLower` is the ASCII
case mapping these paths and names use). -/
def lowerStr (s : String) : String := ⟨s.data.map Char.toLower⟩

/-- `s.startswith(pre)`. -/
def startsWithStr (s pre : String) : Bool := pre.data.isPrefixOf s.data

/-- `c in s` for a single character. -/
def containsChar (s : String) (c : Char) : Bool := s.data.contains c

/-- `s.replace(a, b)` for single characters. -/
def replaceChar (a b : Char) (s : String) : String :=
  ⟨s.data.map (fun c => if c = a then b else c)⟩

/-- `s.replace(a, '')` for a single character. -/
def removeChar (a : Char) (s : String) : String := ⟨s.data.filter (· ≠ a)⟩

/-- `s.split(c)` for a single-character separator. -/
def splitChar (c : Char) : List Char → List (List Char)
  | [] => [[]]
  | ch :: t =>
    match splitChar c t with
    | [] => [[]]
    | h :: rest => if ch = c then [] :: h :: rest else (ch :: h) :: rest

def splitOnC (c : Char) (s : String) : List String :=
  (splitChar c s.data).map (fun l => ⟨l⟩)

/-- `sep.join(l)`. -/
def joinWith (sep : String) : List String → String
  | [] => ""
  | h :: t => t.foldl (fun acc x => acc ++ sep ++ x) h

def dropRightStr (s : String) (n : Nat) : String :=
  ⟨s.data.take (s.data.length - n)⟩

/-- Python `value.rstrip('/')`. -/
def rstripSlash (s : String) : String :=
  ⟨(s.toList.reverse.dropWhile (· = '/')).reverse⟩

/-- Python `value.strip(c)` for a single strip character. -/
def stripChar (c : Char) (l : List Char) : List Char :=
  ((l.dropWhile (· = c)).reverse.dropWhile (· = c)).reverse

/-- Python `str.strip()` (whitespace). -/
def pyStrip (s : String) : String :=
  ⟨((s.toList.dropWhile Char.isWhitespace).reverse.dropWhile Char.isWhitespace).reverse⟩

/-- Collapse runs of `c` to a single `c` (the effect of `re.sub(c+, c, s)`). -/
def collapseRuns (c : Char) : List Char → List Char
  | [] => []
  | [a] => [a]
  | a :: b :: t =>
    if a = c ∧ b = c then collapseRuns c (b :: t)
    else a :: collapseRuns c (b :: t)

/-- Python `str.split()` : split on whitespace runs, dropping empties. -/
def pySplitWsAux : List Char → List Char → List String
  | [], acc => if acc.isEmpty then [] else [⟨acc.reverse⟩]
  | ch :: t, acc =>
    if ch.isWhitespace then
      if acc.isEmpty then pySplitWsAux t []
      else (⟨acc.reverse⟩ : String) :: pySplitWsAux t []
    else pySplitWsAux t (ch :: acc)

def pySplitWs (s : String) : List String := pySplitWsAux s.toList []

/-- Python `str.removesuffix(suf)`. -/
def removeSuffixStr (s suf : String) : String :=
  if suf.toList.isSuffixOf s.toList then dropRightStr s suf.length else s

/-- `a ≤ b` for strings as a Bool, via the derived order (used only for
the `sorted(...)` calls, whose exact order no proved property depends on). -/
def listLexLe : List Char → List Char → Bool
  | [], _ => true
  | _ :: _, [] => false
  | a :: as, b :: bs =>
    if a.toNat < b.toNat then true
    else if b.toNat < a.toNat then false
    else listLexLe as bs

def strLe (a b : String) : Bool := listLexLe a.data b.data

/-- Insertion into a sorted list (helper for the `sorted(...)` calls). -/
def insertSorted (le : α → α → Bool) (x : α) : List α → List α
  | [] => [x]
  | y :: t => if le x y then x :: y :: t else y :: insertSorted le x t

/-- Embedding of Python `sorted(l, key=...)` (order details irrelevant to
the proved properties; only the permutation property is used). -/
def sortBy (le : α → α → Bool) (l : List α) : List α :=
  l.foldr (insertSorted le) []

theorem insertSorted_perm (le : α → α → Bool) (x : α) :
    ∀ l : List α, List.Perm (insertSorted le x l) (x :: l) := by
  intro l
  induction l with
  | nil => simp [insertSorted]
  | cons y t ih =>
    simp only [insertSorted]
    split
    · exact List.Perm.refl _
    · exact ((ih.cons y).trans (List.Perm.swap x y t))

theorem sortBy_perm (le : α → α → Bool) (l : List α) :
    List.Perm (sortBy le l) l := by
  induction l with
  | nil => simp [sortBy]
  | cons x t ih =>
    simpa [sortBy] using (insertSorted_perm le x (sortBy le t)).trans (ih.cons x)

/-! ## `PPath` — structural model of `pathlib.PurePosixPath` -/

structure PPath where
  absolute : Bool
  parts : List String
deriving Repr, DecidableEq, Inhabited

/-- `pathlib.Path(s)` : absolute iff the string starts with `/`;
components split on `/` with empty and `.` components dropped. -/
def parsePath (s : String) : PPath :=
  { absolute := startsWithStr s "/"
    parts := (splitOnC '/' s).filter (fun c => ¬ (c = "" ∨ c = ".")) }

/-- `str(path)`. -/
def strOfPath (p : PPath) : String :=
  if p.absolute then "/" ++ joinWith "/" p.parts
  else if p.parts.isEmpty then "." else joinWith "/" p.parts

/-- `base / rel` : if `rel` is absolute it replaces `base`. -/
def pjoin (base rel : PPath) : PPath :=
  if rel.absolute then rel else ⟨base.absolute, base.parts ++ rel.parts⟩

/-- `path.parent`. -/
def pparent (p : PPath) : PPath := ⟨p.absolute, p.parts.dropLast⟩

/-- `path.name`. -/
def pname (p : PPath) : String := (p.parts.reverse.headD "")

/-- A direct child `p / name` for a single plain component. -/
def childPath (p : PPath) (name : String) : PPath :=
  ⟨p.absolute, p.parts ++ [name]⟩

/-- `path.suffix` per CPython: the extension of the last component,
empty unless the last `.` is at an index `i` with `0 < i < len - 1`. -/
def psuffix (p : PPath) : String :=
  let n := (pname p).toList
  match n.reverse.findIdx? (fun c => c = '.') with
  | none => ""
  | some j =>
    let i := n.length - 1 - j
    if 0 < i ∧ i < n.length - 1 then ⟨n.drop i⟩ else ""

/-! ## SecretFilter (`backup/security.py`)

A compiled redaction rule is abstracted over the regex engine: `find`
returns the `(start, length)` spans `pattern.finditer` yields on a text,
and `repl` is the expansion of the rule's replacement template for a
matched text. `pattern.sub` replaces exactly those spans. -/

structure Rule where
  name : String
  find : List Char → List (Nat × Nat)
  repl : List Char → List Char

structure Change where
  pattern : String
  original : String
  line : Nat
  filename : Option String
deriving Repr, DecidableEq

/-- Replace the given spans (positions relative to `text`) by the
template expansion of the matched slice — the semantics of
`pattern.sub` for the span list `finditer` produced. -/
def spliceAll (repl : List Char → List Char) (text : List Char) :
    List (Nat × Nat) → List Char
  | [] => text
  | (s, l) :: rest =>
    text.take s ++ repl ((text.drop s).take l) ++
      spliceAll repl (text.drop (s + l)) (rest.map (fun q => (q.1 - (s + l), q.2)))
termination_by spans => spans.length
decreasing_by simp

/-- `pattern.sub(replacement, text)` for one compiled rule. -/
def ruleSub (r : Rule) (text : List Char) : List Char :=
  spliceAll r.repl text (r.find text)

/-- `SecretFilter._truncate_secret` (list-of-chars core), `max_len = 20`:
`value[:8] + '...' + value[-4:]` when longer than `max_len`, else
`value[:4] + '...'` when longer than 8, else `'...'`. -/
def truncList (maxLen : Nat) (v : List Char) : List Char :=
  if v.length ≤ maxLen then
    if v.length > 8 then v.take 4 ++ ['.', '.', '.'] else ['.', '.', '.']
  else v.take 8 ++ ['.', '.', '.'] ++ v.drop (v.length - 4)

def truncateSecret (s : String) : String := ⟨truncList 20 s.toList⟩

/-- The `Change` entries one rule contributes on the current text:
one per match, line number = newlines before the match start plus 1,
original truncated. -/
def changesOf (r : Rule) (text : List Char) (filename : Option String) :
    List Change :=
  (r.find text).map fun sl =>
    { pattern := r.name
      original := truncateSecret ⟨(text.drop sl.1).take sl.2⟩
      line := (text.take sl.1).count '\n' + 1
      filename := filename }

/-- `SecretFilter.filter_content`: for each rule in declared order,
record one `Change` per match found in the *current* text, then apply
that rule's substitution before moving to the next rule. -/
def filterContent (rules : List Rule) (content : List Char)
    (filename : Option String) : List Char × List Change :=
  rules.foldl
    (fun acc r => (ruleSub r acc.1, acc.2 ++ changesOf r acc.1 filename))
    (content, [])

/-- The text after the first rules have substituted (specification-side
description of the intermediate texts). -/
def textAfter (rules : List Rule) (content : List Char) : List Char :=
  rules.foldl (fun t r => ruleSub r t) content

/-! ## Filesystem oracle

Reads are supplied by `Env`; mutations are recorded as `FSOp` values.
The `ok` flag on `chmod` records whether the attempted `os.chmod`
succeeded (the source swallows `OSError` from it). -/

/-- Finite directory tree, the part of the filesystem `os.walk` visits:
direct files and named subdirectories. -/
inductive DirTree where
  | node (files : List String) (subs : List (String × DirTree))
deriving Repr, Inhabited

/-- Item status; `partialR` stands for the source's `'partial'`. -/
inductive Status where
  | success
  | skipped
  | partialR
  | error
deriving Repr, DecidableEq, Inhabited

/-- Outcome of `backup_plist_as_xml` (plist conversion is outside the
verified core; its observable result is an oracle). -/
structure PlistOutcome where
  status : Status
  msg : Option String
  originalFormat : Option String
deriving Repr, DecidableEq, Inhabited

structure Env where
  home : PPath
  xdg : PPath
  resolve : PPath → PPath
  pexists : PPath → Bool
  isFile : PPath → Bool
  isDir : PPath → Bool
  sizeBytes : PPath → Option Nat
  isBinaryPlist : PPath → Bool
  readText : PPath → Except String (List Char)
  mkdirRes : PPath → Except String Unit
  writeRes : PPath → Except String Unit
  copyRes : PPath → PPath → Except String Unit
  tree : PPath → DirTree
  plistBackup : PPath → PPath → PlistOutcome
  fnmatch : String → String → Bool

inductive FSOp where
  | mkdir (p : PPath)
  | write (p : PPath)
  | copy (src dst : PPath)
  | chmod (p : PPath) (mode : Nat) (ok : Bool)
deriving Repr, DecidableEq

/-! ## ExclusionPolicy (`backup/security.py`)

The rule lists come from `security-patterns.yaml` (data, not code): they
are parameters (`SecCfg`). Reasons are structured instead of formatted
strings; each constructor corresponds to one `return` site. -/

inductive Reason where
  | cachePattern (pat : String)
  | tooLarge
  | cannotCheckSize
  | excludedExtension (ext : String)
  | excludeFiles (pat : String)
  | excludeByExtension (pat : String)
  | excludeByPattern (pat : String)
  | excludeDirectories (pat : String)
  | parentExcluded (r : Reason)
  | sourceMissing
  | configFilter (msg : String)
  | plistIssue (msg : Option String)
deriving Repr, DecidableEq

structure SecCfg where
  excludeFiles : List String
  excludeDirectories : List String
  excludeByPattern : List String
  excludeByExtension : List String
  maxFileSizeMB : ℚ

/-- `DEFAULT_MAX_FILE_SIZE_MB = 10` and empty pattern lists (the value
`ExclusionChecker.max_file_size_mb` defaults to when the YAML document
carries no `exclude_by_size` entry). -/
def defaultSecCfg : SecCfg :=
  { excludeFiles := [], excludeDirectories := [], excludeByPattern := []
    excludeByExtension := [], maxFileSizeMB := 10 }

/-- The size check `st_size / (1024*1024) > max_file_size_mb`, phrased
over the integers (equivalent to the exact rational comparison, which
for these magnitudes agrees with the Python float comparison). -/
def sizeExceedsMB (n : Nat) (maxMB : ℚ) : Bool :=
  decide (maxMB.num * 1048576 < (n : ℤ) * (maxMB.den : ℤ))

theorem sizeExceedsMB_iff (n : Nat) (m : ℚ) :
    sizeExceedsMB n m = true ↔ (n : ℚ) / 1048576 > m := by
  rw [sizeExceedsMB, decide_eq_true_eq, gt_iff_lt,
    lt_div_iff₀ (by norm_num : (0:ℚ) < 1048576)]
  have hden : (0:ℚ) < (m.den : ℚ) := by exact_mod_cast m.pos
  constructor
  · intro h
    have h2 : (m.num : ℚ) * 1048576 < (n : ℚ) * (m.den : ℚ) := by exact_mod_cast h
    calc m * 1048576 = (m.num : ℚ) / (m.den : ℚ) * 1048576 := by
          rw [Rat.num_div_den]
      _ = (m.num : ℚ) * 1048576 / (m.den : ℚ) := by ring
      _ < n := by rw [div_lt_iff₀ hden]; exact h2
  · intro h
    have h2 : (m.num : ℚ) * 1048576 / (m.den : ℚ) < n := by
      calc (m.num : ℚ) * 1048576 / (m.den : ℚ)
          = (m.num : ℚ) / (m.den : ℚ) * 1048576 := by ring
        _ = m * 1048576 := by rw [Rat.num_div_den]
        _ < n := h
    have h3 := (div_lt_iff₀ hden).mp h2
    exact_mod_cast h3

/-- The `cache_patterns` list of `is_pure_config`, in source order. -/
def cachePatterns : List String :=
  ["/cache/", "/caches/", "/.cache/",
   "/logs/", "/log/",
   "/crashpad/", "/crashreporter/",
   "/temp/", "/tmp/"]

/-- The `excluded_extensions` set of `is_pure_config`. -/
def excludedExtensions : List String :=
  [".sqlite", ".sqlite3", ".db",
   ".dylib", ".so", ".dll", ".exe",
   ".sqlite-wal", ".sqlite-shm"]

/-- `is_pure_config(path, max_size_mb)`: cache/log substring on the
lowercased path string first, then (files only) the size check,
then the hard-excluded-extension check. -/
def isPureConfig (env : Env) (maxMB : ℚ) (p : PPath) : Bool × Option Reason :=
  let s := lowerStr (strOfPath p)
  match cachePatterns.find? (fun pat => hasInfix pat.toList s.toList) with
  | some pat => (false, some (.cachePattern pat))
  | none =>
    let extCheck : Bool × Option Reason :=
      if lowerStr (psuffix p) ∈ excludedExtensions then
        (false, some (.excludedExtension (psuffix p)))
      else (true, none)
    if env.isFile p then
      match env.sizeBytes p with
      | some n =>
        if sizeExceedsMB n maxMB then (false, some .tooLarge) else extCheck
      | none => (false, some .cannotCheckSize)
    else extCheck

/-- `ExclusionChecker.should_exclude_file`. -/
def shouldExcludeFile (env : Env) (cfg : SecCfg) (p : PPath) :
    Bool × Option Reason :=
  let filename := pname p
  let pathStr := strOfPath p
  match cfg.excludeFiles.find? (fun pat =>
      env.fnmatch filename pat ||
        (containsChar pat '/' && env.fnmatch pathStr ("*" ++ pat ++ "*"))) with
  | some pat => (true, some (.excludeFiles pat))
  | none =>
    match cfg.excludeByExtension.find? (fun pat => env.fnmatch filename pat) with
    | some pat => (true, some (.excludeByExtension pat))
    | none =>
      match cfg.excludeByPattern.find? (fun pat => env.fnmatch pathStr pat) with
      | some pat => (true, some (.excludeByPattern pat))
      | none =>
        if env.pexists p && env.isFile p then
          match env.sizeBytes p with
          | some n =>
            if sizeExceedsMB n cfg.maxFileSizeMB then (true, some .tooLarge)
            else (false, none)
          | none => (false, none)
        else (false, none)

/-- `ExclusionChecker.should_exclude_directory`. -/
def shouldExcludeDirectory (env : Env) (cfg : SecCfg) (p : PPath) :
    Bool × Option Reason :=
  let dirname := pname p
  let pathStr := strOfPath p
  match cfg.excludeDirectories.find? (fun pat =>
      let clean := rstripSlash pat
      env.fnmatch dirname clean ||
        (env.fnmatch dirname (removeChar '*' clean) && containsChar clean '*')) with
  | some pat => (true, some (.excludeDirectories pat))
  | none =>
    match cfg.excludeByPattern.find? (fun pat =>
        env.fnmatch pathStr pat || env.fnmatch (pathStr ++ "/") pat) with
    | some pat => (true, some (.excludeByPattern pat))
    | none => (false, none)

/-- The `while current != current.parent` loop of
`is_path_in_excluded_directory` (fuel = component count, which bounds
the loop). -/
def excludedParentAux (env : Env) (cfg : SecCfg) :
    Nat → PPath → Bool × Option Reason
  | 0, _ => (false, none)
  | n + 1, cur =>
    if cur = pparent cur then (false, none)
    else
      match shouldExcludeDirectory env cfg cur with
      | (true, r) => (true, some (.parentExcluded (r.getD (.excludeDirectories ""))))
      | _ => excludedParentAux env cfg n (pparent cur)

/-- `ExclusionChecker.is_path_in_excluded_directory`. -/
def isPathInExcludedDirectory (env : Env) (cfg : SecCfg) (p : PPath) :
    Bool × Option Reason :=
  let start := if env.isDir p then p else pparent p
  excludedParentAux env cfg (start.parts.length + 1) start

/-- `SecurityManager.can_backup`: `is_pure_config` first, then the
file / directory / parent-directory exclusion checks. -/
def canBackup (env : Env) (cfg : SecCfg) (p : PPath) : Bool × Option Reason :=
  let pc := isPureConfig env cfg.maxFileSizeMB p
  if ¬ pc.1 then (false, pc.2)
  else
    let fileStep : Bool × Option Reason :=
      if env.isFile p then
        let ex := shouldExcludeFile env cfg p
        if ex.1 then (false, ex.2) else (true, none)
      else (true, none)
    if ¬ fileStep.1 then fileStep
    else
      let dirStep : Bool × Option Reason :=
        if env.isDir p then
          let ex := shouldExcludeDirectory env cfg p
          if ex.1 then (false, ex.2) else (true, none)
        else (true, none)
      if ¬ dirStep.1 then dirStep
      else
        let par := isPathInExcludedDirectory env cfg p
        if par.1 then (false, par.2) else (true, none)

/-! ## PathGuard (`utils/path_safety.py`) -/

/-- `validate_relative_path`: not absolute and no `..` component. -/
def validateRelativePath (p : PPath) : Bool :=
  ¬ p.absolute && ¬ p.parts.contains ".."

/-- `dest.relative_to(base)` succeeds iff the anchors agree and `base`'s
components are a prefix of `dest`'s. -/
def isRelativeTo (d b : PPath) : Bool :=
  d.absolute == b.absolute && b.parts.isPrefixOf d.parts

/-- `safe_join(base, relative)`: reject unless `validate_relative_path`
holds, then resolve both `base` and `base / relative` and re-check the
resolved destination is still inside the resolved base. Pure: performs
no filesystem mutation in either branch. -/
def safeJoin (resolve : PPath → PPath) (base rel : PPath) :
    Except String PPath :=
  if ¬ validateRelativePath rel then
    .error ("Invalid relative path: " ++ strOfPath rel)
  else
    let baseResolved := resolve base
    let dest := resolve (pjoin base rel)
    if isRelativeTo dest baseResolved then .ok dest
    else .error ("Path traversal detected: " ++ strOfPath rel ++ " escapes "
        ++ strOfPath base)

/-! ## Permission normalization (`config_backup.normalize_permissions`)

`ch p` tells whether `os.chmod` on `p` would succeed; the source
swallows the failures (inner per-entry ones individually, an outer
failure by aborting the remaining walk). -/

def FILE_MODE : Nat := 0o600
def DIR_MODE : Nat := 0o700

mutual

/-- The chmod attempts `os.walk(target)` performs at one directory and
below: this level's child directories and files, then each kept child
in order. -/
def walkChmodOps (ch : PPath → Bool) : PPath → DirTree → List FSOp
  | root, .node files subs =>
    (subs.map fun s => FSOp.chmod (childPath root s.1) DIR_MODE (ch (childPath root s.1))) ++
      (files.map fun f => FSOp.chmod (childPath root f) FILE_MODE (ch (childPath root f))) ++
      walkChmodSubs ch root subs

def walkChmodSubs (ch : PPath → Bool) : PPath → List (String × DirTree) → List FSOp
  | _, [] => []
  | root, (name, t) :: rest =>
    walkChmodOps ch (childPath root name) t ++ walkChmodSubs ch root rest

end

/-- `normalize_permissions(target)`: files get `FILE_MODE`, directories
get `DIR_MODE` and are walked recursively; all `OSError`s are swallowed
(an error on the top-level directory chmod aborts the walk, since that
chmod sits before the walk inside the same `try`). Returns the attempted
chmod operations; never reports failure to the caller. -/
def normalizePermissionsOps (env : Env) (ch : PPath → Bool) (target : PPath) :
    List FSOp :=
  if ¬ env.pexists target then []
  else if env.isFile target then [.chmod target FILE_MODE (ch target)]
  else if env.isDir target then
    if ch target then
      .chmod target DIR_MODE true :: walkChmodOps ch target (env.tree target)
    else [.chmod target DIR_MODE false]
  else []

/-! ## Copy and filtered-process primitives -/

structure CopyRes where
  status : Status
  error : Option String
deriving Repr, DecidableEq

/-- `copy_file_safe(src, dst, normalize)`: create parents, `copy2`,
then (optionally) normalize permissions; `OSError` → status `error`. -/
def copyFileSafe (env : Env) (ch : PPath → Bool) (normalize : Bool)
    (src dst : PPath) : CopyRes × List FSOp :=
  match env.mkdirRes (pparent dst) with
  | .error e => ({ status := .error, error := some e }, [])
  | .ok _ =>
    match env.copyRes src dst with
    | .error e => ({ status := .error, error := some e }, [.mkdir (pparent dst)])
    | .ok _ =>
      let nops := if normalize then normalizePermissionsOps env ch dst else []
      ({ status := .success, error := none }, [.mkdir (pparent dst), .copy src dst] ++ nops)

structure PFRes where
  status : Status
  reason : Option Reason
  changes : List Change
  errors : List String
deriving Repr, DecidableEq

/-- `SecurityManager.process_file(source, dest, include_secrets)`:
re-check `can_backup`, read, filter unless secrets are kept, write. -/
def processFile (env : Env) (secCfg : SecCfg) (rules : List Rule)
    (includeSecrets : Bool) (source dest : PPath) : PFRes × List FSOp :=
  let cb := canBackup env secCfg source
  if ¬ cb.1 then
    ({ status := .skipped, reason := cb.2, changes := [], errors := [] }, [])
  else
    match env.readText source with
    | .error e =>
      ({ status := .error, reason := none, changes := [], errors := [e] }, [])
    | .ok content =>
      let pair :=
        if includeSecrets then (content, ([] : List Change))
        else filterContent rules content (some (strOfPath source))
      match env.mkdirRes (pparent dest) with
      | .error e =>
        ({ status := .error, reason := none, changes := pair.2, errors := [e] }, [])
      | .ok _ =>
        match env.writeRes dest with
        | .error e =>
          ({ status := .error, reason := none, changes := pair.2, errors := [e] },
           [.mkdir (pparent dest)])
        | .ok _ =>
          ({ status := .success, reason := none, changes := pair.2, errors := [] },
           [.mkdir (pparent dest), .write dest])

/-! ## ConfigBackup (`backup/config_backup.py`)

`ConfigFilter` reads its rule document from a data file; to the backup
code it is an opaque classifier, modelled as the oracle `CFOracle`
(the concrete embedding of `ConfigFilter`'s loading appears further
below with its own claims). -/

structure CFOracle where
  file : PPath → Bool × String
  dir : PPath → Bool × String
  recurse : PPath → Bool

structure Cfg where
  outputDir : PPath
  includeSecrets : Bool
  normalizeFlag : Bool
  secCfg : SecCfg
  rules : List Rule

structure BResult where
  source : PPath
  dest : Option PPath
  relativeDest : String
  status : Status
  reason : Option Reason
  filtered : Bool
  changes : List Change
  errors : List String
  discoveryTier : String
  plistConverted : Bool
  originalFormat : Option String
  tierFilteredFlag : Bool
  filesProcessed : Nat
  filesFiltered : Nat
  filesSkipped : Nat
  tierFilteredCount : Nat
deriving Repr, DecidableEq, Inhabited

structure BState where
  results : List BResult
deriving Repr, DecidableEq, Inhabited

def mkBase (source : PPath) (dest : Option PPath) (relativeDest tier : String) :
    BResult :=
  { source := source, dest := dest, relativeDest := relativeDest
    status := .success, reason := none, filtered := false, changes := []
    errors := [], discoveryTier := tier, plistConverted := false
    originalFormat := none, tierFilteredFlag := false
    filesProcessed := 0, filesFiltered := 0, filesSkipped := 0
    tierFilteredCount := 0 }

/-- `self.results.append(result)`. -/
def push (st : BState) (r : BResult) : BState := ⟨st.results ++ [r]⟩

/-- The result-dict mutations of `backup_file` / `backup_directory`,
named so the control flow stays readable. -/
def setSkip (r : BResult) (reason : Option Reason) : BResult :=
  { r with status := .skipped, reason := reason }

def setSkipFilter (r : BResult) (msg : String) : BResult :=
  { r with
    status := .skipped
    reason := some (.configFilter msg)
    tierFilteredFlag := true }

def setError (r : BResult) (errs : List String) : BResult :=
  { r with status := .error, errors := errs }

def traversalResult (source : PPath) (rd tier : String) (e : String) : BResult :=
  { mkBase source none rd tier with status := .error, errors := [e] }

def plistFailResult (r : BResult) (po : PlistOutcome) : BResult :=
  { r with status := po.status, reason := some (.plistIssue po.msg) }

def plistOkBase (r : BResult) (po : PlistOutcome) : BResult :=
  { r with plistConverted := true, originalFormat := po.originalFormat }

def setFilteredChanges (r : BResult) (cs : List Change) : BResult :=
  { r with filtered := true, changes := cs }

def copyFailResult (r : BResult) (cp : CopyRes) : BResult :=
  { r with status := cp.status, errors := r.errors ++ [cp.error.getD "Copy failed"] }

/-- `discovery_tier in ('conventions', 'llm')`. -/
def tierIsFiltered (tier : String) : Bool :=
  tier == "conventions" || tier == "llm"

/-- `ConfigBackup.backup_file`. Returns the result dict, the new
`self.results` state, and the filesystem mutations attempted. -/
def backupFile (env : Env) (ch : PPath → Bool) (cf : CFOracle) (cfg : Cfg)
    (st : BState) (source : PPath) (relativeDest : String)
    (filterSecrets : Option Bool) (tier : String) :
    BResult × BState × List FSOp :=
  match safeJoin env.resolve cfg.outputDir (parsePath relativeDest) with
  | .error e => (traversalResult source relativeDest tier e, st, [])
  | .ok dest =>
    let r0 := mkBase source (some dest) relativeDest tier
    if ¬ env.pexists source then
      let r := setSkip r0 (some .sourceMissing)
      (r, push st r, [])
    else if tierIsFiltered tier && ¬ (cf.file source).1 then
      let r := setSkipFilter r0 (cf.file source).2
      (r, push st r, [])
    else
      let cb := canBackup env cfg.secCfg source
      if ¬ cb.1 then
        let r := setSkip r0 cb.2
        (r, push st r, [])
      else
        let shouldFilter := filterSecrets.getD (¬ cfg.includeSecrets)
        match env.mkdirRes (pparent dest) with
        | .error e =>
          let r := setError r0 [e]
          (r, push st r, [])
        | .ok _ =>
          if env.isFile source then
            if lowerStr (psuffix source) == ".plist" && env.isBinaryPlist source then
              let po := env.plistBackup source dest
              if po.status != .success then
                let r := plistFailResult r0 po
                (r, push st r, [.mkdir (pparent dest)])
              else
                let r1 := plistOkBase r0 po
                if shouldFilter then
                  match env.readText dest with
                  | .error e =>
                    let r := setError r1 [e]
                    (r, push st r, [.mkdir (pparent dest), .write dest])
                  | .ok content =>
                    let fc := filterContent cfg.rules content (some (strOfPath source))
                    match env.writeRes dest with
                    | .error e =>
                      let r := setError r1 [e]
                      (r, push st r, [.mkdir (pparent dest), .write dest])
                    | .ok _ =>
                      let r := setFilteredChanges r1 fc.2
                      let nops := if cfg.normalizeFlag then
                          normalizePermissionsOps env ch dest else []
                      (r, push st r,
                       [.mkdir (pparent dest), .write dest, .write dest] ++ nops)
                else
                  let nops := if cfg.normalizeFlag then
                      normalizePermissionsOps env ch dest else []
                  (r1, push st r1, [.mkdir (pparent dest), .write dest] ++ nops)
            else if shouldFilter then
              let pf := processFile env cfg.secCfg cfg.rules false source dest
              let r1 := setFilteredChanges r0 pf.1.changes
              let r2 := if pf.1.status == .error then setError r1 pf.1.errors else r1
              let nops := if cfg.normalizeFlag && r2.status == .success then
                  normalizePermissionsOps env ch dest else []
              (r2, push st r2, .mkdir (pparent dest) :: pf.2 ++ nops)
            else
              let cp := copyFileSafe env ch cfg.normalizeFlag source dest
              let r1 := if cp.1.status != .success then copyFailResult r0 cp.1 else r0
              (r1, push st r1, .mkdir (pparent dest) :: cp.2)
          else
            (r0, push st r0, [.mkdir (pparent dest)])

/-! ## `ConfigBackup.backup_directory` -/

structure DirAcc where
  filesProcessed : Nat
  filesFiltered : Nat
  filesSkipped : Nat
  tierFilteredCount : Nat
  totalChanges : List Change
  errors : List String
  ops : List FSOp
deriving Repr, DecidableEq

def emptyDirAcc : DirAcc :=
  { filesProcessed := 0, filesFiltered := 0, filesSkipped := 0
    tierFilteredCount := 0, totalChanges := [], errors := [], ops := [] }

def dirDoneResult (r : BResult) (acc : DirAcc) : BResult :=
  { r with
    status := if ¬ acc.errors.isEmpty then .partialR else .success
    filesProcessed := acc.filesProcessed
    filesFiltered := acc.filesFiltered
    filesSkipped := acc.filesSkipped
    tierFilteredCount := acc.tierFilteredCount
    changes := acc.totalChanges
    errors := acc.errors }


/-- `ConfigBackup._matches_exclude_pattern`. -/
def matchesExcludePattern (env : Env) (name : String) (pats : List String) :
    Bool :=
  pats.any fun pat =>
    let clean := rstripSlash pat
    env.fnmatch name clean || env.fnmatch (lowerStr name) (lowerStr clean)

/-- One file inside the `os.walk` loop of `backup_directory`:
app-specific exclude patterns, then (tier 2/3) `ConfigFilter`, then
`can_backup`, then the per-file copy/filter with its own `except`. -/
def dirFileStep (env : Env) (ch : PPath → Bool) (cf : CFOracle) (cfg : Cfg)
    (useCf shouldFilter : Bool) (excludePats : List String)
    (root destRoot : PPath) (filename : String) (acc : DirAcc) : DirAcc :=
  let srcFile := childPath root filename
  let dstFile := childPath destRoot filename
  if ¬ excludePats.isEmpty && matchesExcludePattern env filename excludePats then
    { acc with filesSkipped := acc.filesSkipped + 1 }
  else if useCf && ¬ (cf.file srcFile).1 then
    { acc with tierFilteredCount := acc.tierFilteredCount + 1 }
  else if ¬ (canBackup env cfg.secCfg srcFile).1 then
    { acc with filesSkipped := acc.filesSkipped + 1 }
  else
    match env.mkdirRes destRoot with
    | .error e => { acc with errors := acc.errors ++ [e] }
    | .ok _ =>
      let acc := { acc with ops := acc.ops ++ [FSOp.mkdir destRoot] }
      if lowerStr (psuffix srcFile) == ".plist" && env.isBinaryPlist srcFile then
        let po := env.plistBackup srcFile dstFile
        if po.status == .success then
          let acc := { acc with ops := acc.ops ++ [FSOp.write dstFile] }
          if shouldFilter then
            match env.readText dstFile with
            | .error e => { acc with errors := acc.errors ++ [e] }
            | .ok content =>
              let fc := filterContent cfg.rules content (some (strOfPath srcFile))
              match env.writeRes dstFile with
              | .error e => { acc with errors := acc.errors ++ [e] }
              | .ok _ =>
                let acc := { acc with ops := acc.ops ++ [FSOp.write dstFile] }
                let acc := if ¬ fc.2.isEmpty then
                    { acc with
                      filesFiltered := acc.filesFiltered + 1,
                      totalChanges := acc.totalChanges ++ fc.2 }
                  else acc
                { acc with filesProcessed := acc.filesProcessed + 1 }
          else { acc with filesProcessed := acc.filesProcessed + 1 }
        else
          { acc with
            errors := acc.errors ++ [po.msg.getD "Plist conversion failed"],
            filesProcessed := acc.filesProcessed + 1 }
      else if shouldFilter then
        let pf := processFile env cfg.secCfg cfg.rules false srcFile dstFile
        let acc := { acc with ops := acc.ops ++ pf.2 }
        let acc := if ¬ pf.1.changes.isEmpty then
            { acc with
              filesFiltered := acc.filesFiltered + 1,
              totalChanges := acc.totalChanges ++ pf.1.changes }
          else acc
        let acc := if pf.1.status == .error then
            { acc with errors := acc.errors ++ pf.1.errors }
          else acc
        { acc with filesProcessed := acc.filesProcessed + 1 }
      else
        let cp := copyFileSafe env ch false srcFile dstFile
        { acc with
          ops := acc.ops ++ cp.2,
          filesProcessed := acc.filesProcessed + 1 }

mutual

/-- The `os.walk(source)` loop: process this level's files, then
descend into the subdirectories that survive the `dirs[:]` pruning. -/
def walkBackup (env : Env) (ch : PPath → Bool) (cf : CFOracle) (cfg : Cfg)
    (useCf shouldFilter : Bool) (excludePats : List String)
    (source dest : PPath) (relParts : List String) :
    DirTree → DirAcc → DirAcc
  | .node files subs, acc =>
    let root : PPath := ⟨source.absolute, source.parts ++ relParts⟩
    let destRoot : PPath := ⟨dest.absolute, dest.parts ++ relParts⟩
    let acc1 := files.foldl
      (fun a f => dirFileStep env ch cf cfg useCf shouldFilter excludePats
        root destRoot f a) acc
    walkSubs env ch cf cfg useCf shouldFilter excludePats source dest relParts
      subs acc1

/-- Descend into kept subdirectories (the three `dirs[:] = ...` filters:
`_should_skip_dir`, app-specific exclude patterns, and — for tier 2/3 —
`ConfigFilter.should_recurse_directory`). -/
def walkSubs (env : Env) (ch : PPath → Bool) (cf : CFOracle) (cfg : Cfg)
    (useCf shouldFilter : Bool) (excludePats : List String)
    (source dest : PPath) (relParts : List String) :
    List (String × DirTree) → DirAcc → DirAcc
  | [], acc => acc
  | (name, t) :: rest, acc =>
    let root : PPath := ⟨source.absolute, source.parts ++ relParts⟩
    let keep :=
      ¬ (shouldExcludeDirectory env cfg.secCfg (childPath root name)).1 &&
        ¬ (¬ excludePats.isEmpty && matchesExcludePattern env name excludePats) &&
        (¬ useCf || cf.recurse (childPath root name))
    if keep then
      walkSubs env ch cf cfg useCf shouldFilter excludePats source dest relParts
        rest
        (walkBackup env ch cf cfg useCf shouldFilter excludePats source dest
          (relParts ++ [name]) t acc)
    else
      walkSubs env ch cf cfg useCf shouldFilter excludePats source dest relParts
        rest acc

end

/-- `ConfigBackup.backup_directory`. -/
def backupDirectory (env : Env) (ch : PPath → Bool) (cf : CFOracle) (cfg : Cfg)
    (st : BState) (source : PPath) (relativeDest : String)
    (filterSecrets : Option Bool) (tier : String)
    (excludePats : List String) : BResult × BState × List FSOp :=
  match safeJoin env.resolve cfg.outputDir (parsePath relativeDest) with
  | .error e => (traversalResult source relativeDest tier e, st, [])
  | .ok dest =>
    let r0 := mkBase source (some dest) relativeDest tier
    if ¬ env.pexists source then
      let r := setSkip r0 (some .sourceMissing)
      (r, push st r, [])
    else if tierIsFiltered tier && ¬ (cf.dir source).1 then
      let r := setSkipFilter r0 (cf.dir source).2
      (r, push st r, [])
    else
      let cb := canBackup env cfg.secCfg source
      if ¬ cb.1 then
        let r := setSkip r0 cb.2
        (r, push st r, [])
      else
        let shouldFilter := filterSecrets.getD (¬ cfg.includeSecrets)
        let acc := walkBackup env ch cf cfg (tierIsFiltered tier) shouldFilter
          excludePats source dest [] (env.tree source) emptyDirAcc
        let nops := if cfg.normalizeFlag then
            normalizePermissionsOps env ch dest else []
        let r := dirDoneResult r0 acc
        (r, push st r, acc.ops ++ nops)

/-! ## `ConfigBackup.get_summary` -/

structure Summary where
  totalOperations : Nat
  successCount : Nat
  partialCount : Nat
  skippedCount : Nat
  errorCount : Nat
  includeSecrets : Bool
  outputDir : PPath
deriving Repr, DecidableEq

def getSummary (cfg : Cfg) (st : BState) : Summary :=
  { totalOperations := st.results.length
    successCount := st.results.countP (fun r => r.status == .success)
    partialCount := st.results.countP (fun r => r.status == .partialR)
    skippedCount := st.results.countP (fun r => r.status == .skipped)
    errorCount := st.results.countP (fun r => r.status == .error)
    includeSecrets := cfg.includeSecrets
    outputDir := cfg.outputDir }

/-! ## ConfigFilter (`discovery/config_filter.py`)

The inclusion-rule document `config-patterns.yaml` is data; its parsed
shape is `PatternsDoc` and the three load outcomes of `_load_patterns`
are `LoadOutcome`. -/

structure PatternsDoc where
  safeExtensions : List (String × List String)
  hardExcludeExtensions : List String
  safeFilenames : List String
  safeDirectories : List String
  hardExcludePatterns : List String
  maxFileSizeBytes : Option Nat
deriving Repr, DecidableEq

/-- The literal defaults `_load_patterns` installs when the patterns
file does not exist. -/
def defaultPatternsDoc : PatternsDoc :=
  { safeExtensions := [("text_configs", [".json", ".yaml", ".yml", ".toml", ".plist"])]
    hardExcludeExtensions := [".dylib", ".so", ".sqlite", ".db"]
    safeFilenames := []
    safeDirectories := []
    hardExcludePatterns := ["**/Cache/**", "**/Logs/**"]
    maxFileSizeBytes := some 1048576 }

/-- The empty dict `{}`. -/
def emptyPatternsDoc : PatternsDoc :=
  { safeExtensions := [], hardExcludeExtensions := [], safeFilenames := []
    safeDirectories := [], hardExcludePatterns := [], maxFileSizeBytes := none }

/-- What the filesystem/YAML layer hands `_load_patterns`: the file is
missing, or exists but is malformed (YAML/OS error), or parses to a
document. -/
inductive LoadOutcome where
  | missing
  | malformed
  | parsed (d : PatternsDoc)
deriving Repr, DecidableEq

/-- `ConfigFilter._load_patterns`: missing file → built-in defaults;
`yaml.YAMLError` / `OSError` → `self._patterns = {}`. -/
def loadPatterns : LoadOutcome → PatternsDoc
  | .missing => defaultPatternsDoc
  | .malformed => emptyPatternsDoc
  | .parsed d => d

structure LookupSets where
  safeExtensions : List String
  hardExcludeExtensions : List String
  safeFilenames : List String
  safeDirectories : List String
  hardExcludePatterns : List String
  maxFileSize : Nat
deriving Repr, DecidableEq

/-- Extension normalization in `_build_lookup_sets`: lowercase, ensure
a leading dot. -/
def normalizeExt (e : String) : String :=
  let e := lowerStr e
  if startsWithStr e "." then e else "." ++ e

/-- `ConfigFilter._build_lookup_sets`. -/
def buildLookupSets (d : PatternsDoc) : LookupSets :=
  { safeExtensions := d.safeExtensions.flatMap (fun c => c.2.map normalizeExt)
    hardExcludeExtensions := d.hardExcludeExtensions.map normalizeExt
    safeFilenames := d.safeFilenames.map lowerStr
    safeDirectories := d.safeDirectories.map lowerStr
    hardExcludePatterns := d.hardExcludePatterns
    maxFileSize := d.maxFileSizeBytes.getD 1048576 }

/-- The closed set of excluded directory names in
`_is_in_excluded_directory`. -/
def excludedDirNames : List String :=
  ["cache", "caches", "cacheddata",
   "log", "logs",
   "build", "buildx",
   "node_modules", ".git",
   "bin", "obj",
   "__pycache__",
   "blob_storage", "indexeddb", "webstorage",
   "workspacestorage", "globalstorage",
   "local storage", "session storage",
   "gpucache", "shadercache",
   "crashpad", "crashreporter",
   "models", "mutagen", "contexts", "cloud",
   "desktop-build", "refs", "activity"]

/-- `ConfigFilter._matches_exclude_pattern`. -/
def cfExcludePatternMatch (env : Env) (ls : LookupSets) (p : PPath) :
    Option String :=
  ls.hardExcludePatterns.find? fun pat => env.fnmatch (strOfPath p) pat

/-- `ConfigFilter._is_in_excluded_directory`. -/
def cfExcludedDirPart (p : PPath) : Option String :=
  p.parts.find? fun part => lowerStr part ∈ excludedDirNames

/-- The dotfile config name infixes of `is_config_file`. -/
def dotfilePatterns : List String :=
  ["rc", "config", "conf", "profile", "login", "logout",
   "history", "aliases", "exports", "functions"]

/-- `ConfigFilter.is_config_file`. -/
def isConfigFile (env : Env) (ls : LookupSets) (p : PPath) : Bool × String :=
  if ¬ env.pexists p then (false, "File does not exist")
  else if ¬ env.isFile p then (false, "Not a file")
  else
    let filename := lowerStr (pname p)
    let suffix := lowerStr (psuffix p)
    match cfExcludePatternMatch env ls p with
    | some pat => (false, "Matches exclude pattern: " ++ pat)
    | none =>
      match cfExcludedDirPart p with
      | some part => (false, "Inside excluded directory: " ++ part)
      | none =>
        if suffix ∈ ls.hardExcludeExtensions then
          (false, "Excluded extension: " ++ suffix)
        else
          let tooBig := match env.sizeBytes p with
            | some n => decide (n > ls.maxFileSize)
            | none => false
          if tooBig then (false, "File too large")
          else if filename ∈ ls.safeFilenames then
            (true, "Safe filename: " ++ filename)
          else if suffix ∈ ls.safeExtensions then
            (true, "Safe extension: " ++ suffix)
          else if startsWithStr filename "." && ¬ startsWithStr filename ".." then
            if suffix ∈ ls.safeExtensions then
              (true, "Dotfile with safe extension: " ++ suffix)
            else
              match dotfilePatterns.find? (fun pat =>
                  hasInfix pat.toList filename.toList) with
              | some _ => (true, "Dotfile config pattern: " ++ filename)
              | none => (false, "Unknown file type: " ++ filename)
          else (false, "Unknown file type: " ++ filename)

/-- `ConfigFilter.is_config_directory`. -/
def isConfigDirectory (env : Env) (ls : LookupSets) (p : PPath) : Bool × String :=
  if ¬ env.pexists p then (false, "Directory does not exist")
  else if ¬ env.isDir p then (false, "Not a directory")
  else
    let dirname := lowerStr (pname p)
    match cfExcludePatternMatch env ls p with
    | some pat => (false, "Matches exclude pattern: " ++ pat)
    | none =>
      match cfExcludedDirPart p with
      | some part => (false, "Excluded directory type: " ++ part)
      | none =>
        if dirname ∈ ls.safeDirectories then (true, "Safe directory: " ++ dirname)
        else (true, "Allowed directory (not explicitly safe): " ++ dirname)

/-! ## Discovery merge (`discovery/merge.py`) -/

/-- A tier result dict as `merge_discovery_results` consumes it
(hints lookup result, conventions result or LLM result; absent keys are
`none` / `[]`). -/
structure TierInput where
  configurationFiles : List String
  xdgConfigurationFiles : List String
  bundleId : Option String
  installMethod : Option String
  extensionsCmd : Option String
  excludeFiles : List String
  notes : Option String
  hintsKey : Option String
  confidence : Option String
deriving Repr, DecidableEq, Inhabited

/-- Python truthiness of an optional string. -/
def truthy (o : Option String) : Bool :=
  match o with
  | none => false
  | some s => s != ""

structure DiscoveryResult where
  appName : String
  bundleId : Option String
  canonicalKey : Option String
  configurationFiles : List String
  xdgConfigurationFiles : List String
  resolvedPaths : List PPath
  source : String
  confidence : String
  installMethod : Option String
  extensionsCmd : Option String
  excludeFiles : List String
  notes : Option String
  needsLlmDiscovery : Bool
  hintsPaths : List PPath
  conventionsPaths : List PPath
  llmPaths : List PPath
  foundInHints : Bool
deriving Repr, DecidableEq, Inhabited

/-- `DiscoveryResult.has_settings`. -/
def hasSettings (r : DiscoveryResult) : Bool :=
  ¬ r.configurationFiles.isEmpty || ¬ r.xdgConfigurationFiles.isEmpty ||
    ¬ r.resolvedPaths.isEmpty || ¬ r.hintsPaths.isEmpty ||
    ¬ r.conventionsPaths.isEmpty || ¬ r.llmPaths.isEmpty

/-- `_normalize_path_for_dedup`: `str(path.resolve()).lower()`. -/
def normDedup (env : Env) (p : PPath) : String :=
  lowerStr (strOfPath (env.resolve p))

/-- `_normalize_config_path`: `path.rstrip('/').lower()`. -/
def normalizeConfigPath (p : String) : String := lowerStr (rstripSlash p)

/-- `add_config_path` / `add_xdg_path`: insertion-ordered dict keyed by
the normalized path, first writer wins. -/
def addCfgPath (m : List (String × String)) (p : String) :
    List (String × String) :=
  let key := normalizeConfigPath p
  if m.any (fun e => e.1 == key) then m else m ++ [(key, rstripSlash p)]

/-- `resolve_and_add_tier_path`. -/
def resolveAndAddTierPath (env : Env) (cfo : CFOracle)
    (applyFilter isXdg : Bool) (m : List (String × PPath)) (rel : String) :
    List (String × PPath) :=
  let base := if isXdg then env.xdg else env.home
  let full := pjoin base (parsePath rel)
  if ¬ env.pexists full then m
  else
    let resolved := env.resolve full
    let key := normDedup env resolved
    if m.any (fun e => e.1 == key) then m
    else if applyFilter then
      if env.isFile resolved then
        if (cfo.file resolved).1 then m ++ [(key, resolved)] else m
      else if env.isDir resolved then
        if (cfo.dir resolved).1 then m ++ [(key, resolved)] else m
      else m ++ [(key, resolved)]
    else m ++ [(key, resolved)]

/-- The conventions-phase wrapper: only paths whose dedup key is not
already in the hints map are classified and added. -/
def addConvPath (env : Env) (cfo : CFOracle) (hintsMap : List (String × PPath))
    (isXdg : Bool) (m : List (String × PPath)) (rel : String) :
    List (String × PPath) :=
  let base := if isXdg then env.xdg else env.home
  let full := pjoin base (parsePath rel)
  if env.pexists full then
    let key := normDedup env (env.resolve full)
    if hintsMap.any (fun e => e.1 == key) then m
    else resolveAndAddTierPath env cfo true isXdg m rel
  else m

/-- The LLM-phase wrapper: skips keys already in the hints or
conventions maps. -/
def addLlmPath (env : Env) (cfo : CFOracle)
    (hintsMap convMap : List (String × PPath)) (isXdg : Bool)
    (m : List (String × PPath)) (rel : String) : List (String × PPath) :=
  let base := if isXdg then env.xdg else env.home
  let full := pjoin base (parsePath rel)
  if env.pexists full then
    let key := normDedup env (env.resolve full)
    if hintsMap.any (fun e => e.1 == key) || convMap.any (fun e => e.1 == key) then m
    else resolveAndAddTierPath env cfo true isXdg m rel
  else m

/-- `validate_paths`. -/
def validatePathsStep (env : Env) (base : PPath)
    (acc : List String × List PPath × List String) (pstr : String) :
    List String × List PPath × List String :=
  let full := pjoin base (parsePath pstr)
  if env.pexists full then
    let key := normDedup env full
    if key ∈ acc.1 then acc
    else (acc.1 ++ [key], acc.2.1 ++ [env.resolve full], acc.2.2)
  else (acc.1, acc.2.1, acc.2.2 ++ [pstr])

def validatePaths (env : Env) (cfs xdgs : List String) :
    List PPath × List String :=
  let a1 := cfs.foldl (validatePathsStep env env.home) ([], [], [])
  let a2 := xdgs.foldl (validatePathsStep env env.xdg) a1
  a2.2

def sortStr (l : List String) : List String := sortBy strLe l

def sortPaths (l : List PPath) : List PPath :=
  sortBy (fun a b => strLe (strOfPath a) (strOfPath b)) l

/-- The hints tier map after both hints loops (`hints_paths_map`):
home-relative declared paths then XDG-relative ones, unfiltered. -/
def hintsMapOf (env : Env) (cfo : CFOracle) (hintsIn : Option TierInput) :
    List (String × PPath) :=
  ((hintsIn.map (·.xdgConfigurationFiles)).getD []).foldl
    (resolveAndAddTierPath env cfo false true)
    (((hintsIn.map (·.configurationFiles)).getD []).foldl
      (resolveAndAddTierPath env cfo false false) [])

/-- `conventions_paths_map` after both conventions loops. -/
def convMapOf (env : Env) (cfo : CFOracle)
    (hintsIn convIn : Option TierInput) : List (String × PPath) :=
  let hMap := hintsMapOf env cfo hintsIn
  ((convIn.map (·.xdgConfigurationFiles)).getD []).foldl
    (addConvPath env cfo hMap true)
    (((convIn.map (·.configurationFiles)).getD []).foldl
      (addConvPath env cfo hMap false) [])

/-- `llm_paths_map` after both LLM loops (empty unless the LLM tier is
processed at all). -/
def llmMapOf (env : Env) (cfo : CFOracle)
    (hintsIn convIn llmIn : Option TierInput) : List (String × PPath) :=
  let llmActive := llmIn.isSome && ¬ hintsIn.isSome
  let lCfs := if llmActive then (llmIn.map (·.configurationFiles)).getD [] else []
  let lXdgs := if llmActive then (llmIn.map (·.xdgConfigurationFiles)).getD [] else []
  let hMap := hintsMapOf env cfo hintsIn
  let cMap := convMapOf env cfo hintsIn convIn
  lXdgs.foldl (addLlmPath env cfo hMap cMap true)
    (lCfs.foldl (addLlmPath env cfo hMap cMap false) [])

/-- `merge_discovery_results`. -/
def mergeDiscoveryResults (env : Env) (cfo : CFOracle)
    (hintsIn convIn llmIn : Option TierInput)
    (appName : String) (bundleId : Option String) : DiscoveryResult :=
  let hCfs := (hintsIn.map (·.configurationFiles)).getD []
  let hXdgs := (hintsIn.map (·.xdgConfigurationFiles)).getD []
  let cfMap1 := hCfs.foldl addCfgPath []
  let xdgMap1 := hXdgs.foldl addCfgPath []
  let hMap2 := hintsMapOf env cfo hintsIn
  let cCfs := (convIn.map (·.configurationFiles)).getD []
  let cXdgs := (convIn.map (·.xdgConfigurationFiles)).getD []
  let cfMap2 := cCfs.foldl addCfgPath cfMap1
  let xdgMap2 := cXdgs.foldl addCfgPath xdgMap1
  let convMap2 := convMapOf env cfo hintsIn convIn
  let foundInHints := hintsIn.isSome
  let llmActive := llmIn.isSome && ¬ foundInHints
  let lCfs := if llmActive then (llmIn.map (·.configurationFiles)).getD [] else []
  let lXdgs := if llmActive then (llmIn.map (·.xdgConfigurationFiles)).getD [] else []
  let cfMap3 := lCfs.foldl addCfgPath cfMap2
  let xdgMap3 := lXdgs.foldl addCfgPath xdgMap2
  let llmMap2 := llmMapOf env cfo hintsIn convIn llmIn
  let source := if foundInHints then "hints"
    else if convIn.isSome then "conventions"
    else if llmActive then "llm" else "unknown"
  let confidence := if foundInHints then "high"
    else if convIn.isSome then ((convIn.bind (·.confidence)).getD "medium")
    else if llmActive then ((llmIn.bind (·.confidence)).getD "low") else "low"
  let b1 := match hintsIn with
    | some h => if truthy h.bundleId then h.bundleId else bundleId
    | none => bundleId
  let b2 := match convIn with
    | some c => if truthy c.bundleId && ¬ truthy b1 then c.bundleId else b1
    | none => b1
  let im1 :=hintsIn.bind (·.installMethod)
  let im2 := if llmActive && truthy (llmIn.bind (·.installMethod)) && ¬ truthy im1
    then llmIn.bind (·.installMethod) else im1
  let notes1 := hintsIn.bind (·.notes)
  let notes2 := if llmActive && truthy (llmIn.bind (·.notes)) && ¬ truthy notes1
    then llmIn.bind (·.notes) else notes1
  let configurationFiles := sortStr (cfMap3.map (·.2))
  let xdgConfigurationFiles := sortStr (xdgMap3.map (·.2))
  let vp := validatePaths env configurationFiles xdgConfigurationFiles
  let r1 : DiscoveryResult :=
    { appName := appName
      bundleId := b2
      canonicalKey := hintsIn.bind (·.hintsKey)
      configurationFiles := configurationFiles
      xdgConfigurationFiles := xdgConfigurationFiles
      resolvedPaths := vp.1
      source := source
      confidence := confidence
      installMethod := im2
      extensionsCmd := hintsIn.bind (·.extensionsCmd)
      excludeFiles := (hintsIn.map (·.excludeFiles)).getD []
      notes := notes2
      needsLlmDiscovery := false
      hintsPaths := sortPaths (hMap2.map (·.2))
      conventionsPaths := sortPaths (convMap2.map (·.2))
      llmPaths := sortPaths (llmMap2.map (·.2))
      foundInHints := foundInHints }
  { r1 with needsLlmDiscovery := if r1.foundInHints then false else ¬ hasSettings r1 }

/-! ## Hints lookup (`discovery/hints.py`) -/

structure HintsEntry where
  bundleId : Option String
  configurationFiles : List String
  xdgConfigurationFiles : List String
  installMethod : Option String
  extensionsCmd : Option String
  excludeFiles : List String
  notes : Option String
deriving Repr, DecidableEq, Inhabited

def hintsToTierInput (e : HintsEntry) (key : String) : TierInput :=
  { configurationFiles := e.configurationFiles
    xdgConfigurationFiles := e.xdgConfigurationFiles
    bundleId := e.bundleId
    installMethod := e.installMethod
    extensionsCmd := e.extensionsCmd
    excludeFiles := e.excludeFiles
    notes := e.notes
    hintsKey := some key
    confidence := none }

/-- `app_name.lower().replace(' ', '-').replace('_', '-')`. -/
def normalizeAppName (s : String) : String :=
  replaceChar '_' '-' (replaceChar ' ' '-' (lowerStr s))

def lookupDb (db : List (String × HintsEntry)) (k : String) :
    Option HintsEntry :=
  (db.find? (fun e => e.1 == k)).map (·.2)

/-- `get_app_settings`: exact normalized-name match, then suffix-stripped
fallback, then exact bundle-id match, then bundle-id last-segment match.
Returns the entry together with its `_hints_key`. -/
def getAppSettings (db : List (String × HintsEntry)) (appName : String)
    (bundleId : Option String) : Option (HintsEntry × String) :=
  let norm := normalizeAppName appName
  match lookupDb db norm with
  | some e => some (e, norm)
  | none =>
    match [".app", "-app", " app"].findSome? (fun suf =>
        let s := removeSuffixStr norm suf
        if s ≠ norm then (lookupDb db s).map (fun e => (e, s)) else none) with
    | some r => some r
    | none =>
      match bundleId with
      | none => none
      | some bid =>
        if bid == "" then none
        else
          match db.find? (fun e => e.2.bundleId == some bid) with
          | some e => some (e.2, e.1)
          | none =>
            let bsuffix := lowerStr ((splitOnC '.' bid).reverse.headD "")
            (lookupDb db bsuffix).map (fun e => (e, bsuffix))

/-! ## Convention discovery (`discovery/conventions.py`) -/

def mapNonAlnum (rep : Char) (l : List Char) : List Char :=
  l.map (fun c => if c.isAlphanum then c else rep)

/-- `generate_name_variations`. -/
def generateNameVariations (appName : String) : List String :=
  let name := pyStrip (removeSuffixStr appName ".app")
  let v1 := [name]
  let hyph : String := ⟨stripChar '-' (collapseRuns '-' ((mapNonAlnum '-' name.toList).map Char.toLower))⟩
  let v2 := if hyph ≠ "" ∧ hyph ∉ v1 then v1 ++ [hyph] else v1
  let noSep : String := ⟨(name.toList.filter Char.isAlphanum).map Char.toLower⟩
  let v3 := if noSep ≠ "" ∧ noSep ∉ v2 then v2 ++ [noSep] else v2
  let und : String := ⟨stripChar '_' (collapseRuns '_' ((mapNonAlnum '_' name.toList).map Char.toLower))⟩
  let v4 := if und ≠ "" ∧ und ∉ v3 then v3 ++ [und] else v3
  let words := pySplitWs name
  let v5 := match words with
    | [] => v4
    | w :: _ =>
      let fw := lowerStr w
      if fw ≠ "" ∧ fw.length > 2 ∧ fw ∉ v4 then v4 ++ [fw] else v4
  let v6 := if words.length > 1 then
      let lw := (words.reverse.headD "")
      if lw ≠ "" ∧ lw.length > 2 ∧ lw ∉ v5 then v5 ++ [lw] else v5
    else v5
  if name ≠ lowerStr name ∧ lowerStr name ∉ v6 then v6 ++ [lowerStr name] else v6

/-- `generate_bundle_id_variations`. -/
def generateBundleIdVariations (bid : String) : List String :=
  if bid = "" then []
  else
    let v1 := [bid]
    let last := (splitOnC '.' bid).reverse.headD ""
    let v2 := if last ≠ "" ∧ lowerStr last ∉ v1.map lowerStr
      then v1 ++ [last, lowerStr last] else v1
    let parts := splitOnC '.' bid
    if parts.length ≥ 2 then
      let suffix := joinWith "." (parts.drop (parts.length - 2))
      if suffix ∉ v2 then v2 ++ [suffix] else v2
    else v2

structure ConvResult where
  appName : String
  bundleId : Option String
  configurationFiles : List String
  xdgConfigurationFiles : List String
  foundPaths : List String
  checkedHome : List String
  checkedXdg : List String
  confidence : String
deriving Repr, DecidableEq, Inhabited

/-- Order-preserving case-insensitive dedup (the `seen`-set loops). -/
def dedupCaseInsensitive (l : List String) : List String :=
  (l.foldl (fun (acc : List String × List String) p =>
    let key := lowerStr p
    if key ∈ acc.1 then acc else (acc.1 ++ [key], acc.2 ++ [p])) ([], [])).2

/-- One step of the existence-check loops of
`discover_from_conventions` (shared `seen_resolved`, per-loop found
list, shared `found_absolute_paths`). -/
def convCheckStep (env : Env) (base : PPath)
    (acc : List String × List String × List String) (p : String) :
    List String × List String × List String :=
  let full := pjoin base (parsePath p)
  if env.pexists full then
    let key := normDedup env full
    if key ∈ acc.1 then acc
    else (acc.1 ++ [key], acc.2.1 ++ [rstripSlash p],
          acc.2.2 ++ [strOfPath (env.resolve full)])
  else acc

/-- `discover_from_conventions`. -/
def discoverFromConventions (env : Env) (appName : String)
    (bundleId : Option String) (checkExists : Bool) : ConvResult :=
  let nameVars := generateNameVariations appName
  let bundleVars := match bundleId with
    | some b => if b != "" then generateBundleIdVariations b else []
    | none => []
  let homeCands :=
    nameVars.flatMap (fun n =>
      ["." ++ n ++ "/", "Library/Application Support/" ++ n ++ "/"]) ++
    bundleVars.flatMap (fun b =>
      ["Library/Application Support/" ++ b ++ "/",
       "Library/Preferences/" ++ b ++ ".plist",
       "Library/Containers/" ++ b ++ "/",
       "Library/Containers/" ++ b ++ "/Data/Library/Preferences/",
       "Library/Containers/" ++ b ++ "/Data/Library/Application Support/",
       "Library/Group Containers/" ++ b ++ "/",
       "Library/Group Containers/group." ++ b ++ "/"])
  let xdgCands := nameVars.map (fun n => n ++ "/")
  let homeCandsU := dedupCaseInsensitive homeCands
  let xdgCandsU := dedupCaseInsensitive xdgCands
  if checkExists then
    let f1 := homeCandsU.foldl (convCheckStep env env.home) ([], [], [])
    let f2 := xdgCandsU.foldl (convCheckStep env env.xdg) (f1.1, [], f1.2.2)
    let total := f1.2.1.length + f2.2.1.length
    let conf := if total = 0 then "low" else if total = 1 then "medium" else "high"
    { appName := appName, bundleId := bundleId
      configurationFiles := f1.2.1, xdgConfigurationFiles := f2.2.1
      foundPaths := f2.2.2, checkedHome := homeCandsU, checkedXdg := xdgCandsU
      confidence := conf }
  else
    let total := homeCandsU.length + xdgCandsU.length
    let conf := if total = 0 then "low" else if total = 1 then "medium" else "high"
    { appName := appName, bundleId := bundleId
      configurationFiles := homeCandsU, xdgConfigurationFiles := xdgCandsU
      foundPaths := [], checkedHome := homeCandsU, checkedXdg := xdgCandsU
      confidence := conf }

def convToTierInput (c : ConvResult) : TierInput :=
  { configurationFiles := c.configurationFiles
    xdgConfigurationFiles := c.xdgConfigurationFiles
    bundleId := c.bundleId
    installMethod := none, extensionsCmd := none, excludeFiles := []
    notes := none, hintsKey := none
    confidence := some c.confidence }

/-- `discover_common_patterns` (for the `checked_paths` report). -/
def discoverCommonPatterns (env : Env) (appName : String)
    (bundleId : Option String) : List String :=
  let r := discoverFromConventions env appName bundleId false
  let step := fun (base : PPath) (acc : List String × List String) (p : String) =>
    let full := strOfPath (pjoin base (parsePath p))
    let key := lowerStr full
    if key ∈ acc.1 then acc else (acc.1 ++ [key], acc.2 ++ [full])
  let a1 := r.checkedHome.foldl (step env.home) ([], [])
  (r.checkedXdg.foldl (step env.xdg) a1).2

/-! ## Discovery pipeline (`discover_app`, `discover_all_apps`) -/

/-- `discover_app`: hints tier, conventions tier (unless skipped),
then merge; the LLM tier is handled separately. -/
def discoverApp (env : Env) (cfo : CFOracle) (db : List (String × HintsEntry))
    (appName : String) (bundleId : Option String) (skipConventions : Bool) :
    DiscoveryResult :=
  let h := getAppSettings db appName bundleId
  let c := if skipConventions then none
    else some (convToTierInput (discoverFromConventions env appName bundleId true))
  mergeDiscoveryResults env cfo (h.map (fun e => hintsToTierInput e.1 e.2)) c none
    appName bundleId

structure AppRef where
  name : String
  bundleId : Option String
deriving Repr, DecidableEq, Inhabited

structure UndiscoveredEntry where
  name : String
  bundleId : Option String
  checkedPaths : List String
deriving Repr, DecidableEq, Inhabited

def systemPatterns : List String := ["com.apple.", "Apple ", "System "]

/-- One iteration of the `discover_all_apps` loop. -/
def discoverStep (env : Env) (cfo : CFOracle)
    (db : List (String × HintsEntry)) (skipSystemApps : Bool)
    (acc : List DiscoveryResult × List UndiscoveredEntry) (app : AppRef) :
    List DiscoveryResult × List UndiscoveredEntry :=
  let skip := skipSystemApps &&
    ((match app.bundleId with
      | some b => b != "" && systemPatterns.any (fun p => startsWithStr b p)
      | none => false) ||
      systemPatterns.any (fun p => startsWithStr app.name p))
  if skip then acc
  else
    let r := discoverApp env cfo db app.name app.bundleId false
    if hasSettings r then (acc.1 ++ [r], acc.2)
    else
      (acc.1 ++ [{ r with needsLlmDiscovery := true }],
       acc.2 ++ [{ name := app.name, bundleId := app.bundleId,
                   checkedPaths := discoverCommonPatterns env app.name app.bundleId }])

/-- `discover_all_apps`: per app, skip system apps when requested, run
`discover_app`; a result without settings is appended with
`needs_llm_discovery = True` and recorded as undiscovered. -/
def discoverAllApps (env : Env) (cfo : CFOracle) (apps : List AppRef)
    (db : List (String × HintsEntry)) (skipSystemApps : Bool) :
    List DiscoveryResult × List UndiscoveredEntry :=
  apps.foldl (discoverStep env cfo db skipSystemApps) ([], [])

/-! # Verification -/

/-! ## SecretFilter ordering (C4) -/

def defaultRule : Rule := ⟨"", fun _ => [], fun _ => []⟩

/-- Specification-side recursion: the changes the loop of
`filter_content` accumulates, rule by rule, each rule matching the text
left by its predecessors. -/
def changesSpec : List Rule → List Char → Option String → List Change
  | [], _, _ => []
  | r :: rs, c, fn => changesOf r c fn ++ changesSpec rs (ruleSub r c) fn

theorem filterContent_foldl (fn : Option String) :
    ∀ (rules : List Rule) (c : List Char) (acc : List Change),
      rules.foldl (fun acc r => (ruleSub r acc.1, acc.2 ++ changesOf r acc.1 fn))
          (c, acc)
        = (textAfter rules c, acc ++ changesSpec rules c fn) := by
  intro rules
  induction rules with
  | nil => intro c acc; simp [textAfter, changesSpec]
  | cons r rs ih =>
    intro c acc
    simp only [List.foldl_cons]
    rw [ih (ruleSub r c) (acc ++ changesOf r c fn)]
    simp [textAfter, changesSpec]

theorem flatMap_map_succ {β : Type} (f : Nat → List β) (l : List Nat) :
    (l.map Nat.succ).flatMap f = l.flatMap (fun i => f (i + 1)) := by
  induction l with
  | nil => simp
  | cons x t ih => simp [ih]

theorem textAfter_cons (r : Rule) (l : List Rule) (c : List Char) :
    textAfter (r :: l) c = textAfter l (ruleSub r c) := by
  simp [textAfter]

theorem changesSpec_eq (fn : Option String) :
    ∀ (rules : List Rule) (c : List Char),
      changesSpec rules c fn = (List.range rules.length).flatMap (fun i =>
        changesOf (rules.getD i defaultRule) (textAfter (rules.take i) c) fn) := by
  intro rules
  induction rules with
  | nil => intro c; simp [changesSpec]
  | cons r rs ih =>
    intro c
    rw [changesSpec, List.length_cons, List.range_succ_eq_map]
    rw [List.flatMap_cons, flatMap_map_succ]
    simp only [List.getD_cons_zero, List.getD_cons_succ, List.take_zero,
      List.take_succ_cons, textAfter_cons]
    rw [ih (ruleSub r c)]
    simp [textAfter]

/-- **C4**: `SecretFilter.filter_content` applies the compiled rules in
their declared document order; the returned text is the fold of the
rules' substitutions, and the returned change list decomposes by rule:
rule `i` contributes exactly one `Change` per match found in the text
obtained after rules `0..i-1` have already substituted (so later rules
may match against earlier rules' replacement text), each change's line
number being the number of newlines before the match start plus one
(a first-line match records line 1), its original truncated. -/
theorem c4_filter_content_order (rules : List Rule) (content : List Char)
    (fn : Option String) :
    (filterContent rules content fn).1 = textAfter rules content ∧
    (filterContent rules content fn).2 =
      (List.range rules.length).flatMap (fun i =>
        changesOf (rules.getD i defaultRule) (textAfter (rules.take i) content) fn) := by
  have h := filterContent_foldl fn rules content []
  constructor
  · rw [filterContent, h]
  · rw [filterContent, h]
    simp [changesSpec_eq]

/-! ## Secret truncation (C5) -/

/-- **C5** counterexample: the claim says values at or below the
20-character threshold are replaced by a *generic* (value-independent)
placeholder and that no `Change` ever contains the full matched value.
Both fail: a 10-character value keeps its first four characters (two
distinct 10-character inputs give distinct outputs), and the matched
value `"."` is contained verbatim in its own truncation `"..."`. -/
theorem c5_counterexample :
    truncateSecret "abcdefghij" = "abcd..." ∧
    truncateSecret "zzzzzzzzzz" = "zzzz..." ∧
    truncateSecret "abcdefghij" ≠ truncateSecret "zzzzzzzzzz" ∧
    truncateSecret "." = "..." ∧
    ("." : String).toList <:+: (truncateSecret ".").toList := by
  refine ⟨by decide, by decide, by decide, by decide, by decide⟩

/-- **C5** amended: `_truncate_secret` keeps first-8 + `...` + last-4
for values longer than the 20-character threshold; for values of 9 to 20
characters it keeps the first 4 characters plus `...`; for values of at
most 8 characters it returns the bare `...`; and the truncation never
contains the full matched value unless that value is itself a substring
of `"..."` (i.e. empty or all dots of length ≤ 3). -/
theorem c5_truncate_amended (s : List Char) :
    (20 < s.length →
      truncList 20 s = s.take 8 ++ ['.', '.', '.'] ++ s.drop (s.length - 4)) ∧
    (8 < s.length → s.length ≤ 20 → truncList 20 s = s.take 4 ++ ['.', '.', '.']) ∧
    (s.length ≤ 8 → truncList 20 s = ['.', '.', '.']) ∧
    (¬ s <:+: ['.', '.', '.'] → ¬ s <:+: truncList 20 s) := by
  refine ⟨?_, ?_, ?_, ?_⟩
  · intro h
    rw [truncList, if_neg (by omega)]
  · intro h8 h20
    rw [truncList, if_pos h20, if_pos (by omega)]
  · intro h
    rw [truncList, if_pos (by omega), if_neg (by omega)]
  · intro hno hin
    by_cases h20 : s.length ≤ 20
    · by_cases h8 : 8 < s.length
      · rw [truncList, if_pos h20, if_pos (by omega)] at hin
        have hlen := hin.length_le
        simp only [List.length_append, List.length_take, List.length_cons,
          List.length_nil] at hlen
        omega
      · rw [truncList, if_pos h20, if_neg (by omega)] at hin
        exact hno hin
    · rw [truncList, if_neg h20] at hin
      have hlen := hin.length_le
      simp only [List.length_append, List.length_take, List.length_cons,
        List.length_nil, List.length_drop] at hlen
      omega

/-! ## ExclusionPolicy ordering (C6) -/

theorem isPureConfig_cache (env : Env) (maxMB : ℚ) (p : PPath) (pat : String)
    (h : cachePatterns.find?
        (fun q => hasInfix q.toList (lowerStr (strOfPath p)).toList) = some pat) :
    isPureConfig env maxMB p = (false, some (.cachePattern pat)) := by
  simp only [isPureConfig]
  rw [h]

theorem isPureConfig_tooLarge (env : Env) (maxMB : ℚ) (p : PPath) (n : Nat)
    (hc : cachePatterns.find?
        (fun q => hasInfix q.toList (lowerStr (strOfPath p)).toList) = none)
    (hf : env.isFile p = true) (hs : env.sizeBytes p = some n)
    (hn : (n : ℚ) / 1048576 > maxMB) :
    isPureConfig env maxMB p = (false, some .tooLarge) := by
  have hb : sizeExceedsMB n maxMB = true := (sizeExceedsMB_iff n maxMB).mpr hn
  simp only [isPureConfig]
  rw [hc]
  simp [hf, hs, hb]

theorem isPureConfig_ext (env : Env) (maxMB : ℚ) (p : PPath) (n : Nat)
    (hc : cachePatterns.find?
        (fun q => hasInfix q.toList (lowerStr (strOfPath p)).toList) = none)
    (hf : env.isFile p = true) (hs : env.sizeBytes p = some n)
    (hn : ¬ ((n : ℚ) / 1048576 > maxMB))
    (he : lowerStr (psuffix p) ∈ excludedExtensions) :
    isPureConfig env maxMB p = (false, some (.excludedExtension (psuffix p))) := by
  have hb : sizeExceedsMB n maxMB = false := by
    rw [Bool.eq_false_iff]
    intro htrue
    exact hn ((sizeExceedsMB_iff n maxMB).mp htrue)
  simp only [isPureConfig]
  rw [hc]
  simp [hf, hs, hb, he]

theorem canBackup_of_pure_false (env : Env) (cfg : SecCfg) (p : PPath)
    (h : (isPureConfig env cfg.maxFileSizeMB p).1 = false) :
    canBackup env cfg p = (false, (isPureConfig env cfg.maxFileSizeMB p).2) := by
  simp [canBackup, h]

/-- **C6**: `SecurityManager.can_backup` short-circuits in the claimed
order. (1) If the lowercased path string contains one of the
cache/log/crash/temp substrings, the decision is a rejection citing
exactly that substring — for *every* environment, so in particular the
size oracle is never consulted. (2) Only when no such substring matches
does the size check (bytes / 2²⁰ against the configured maximum, default
10) run, rejecting with the size reason regardless of extensions or
globs. (3) Only after both does the hard-excluded-extension rule fire.
The remaining glob/directory checks run strictly later (they are
reached only when `is_pure_config` accepts). -/
theorem c6_can_backup_order (env : Env) (cfg : SecCfg) (p : PPath) :
    (∀ pat, cachePatterns.find?
        (fun q => hasInfix q.toList (lowerStr (strOfPath p)).toList) = some pat →
      canBackup env cfg p = (false, some (.cachePattern pat))) ∧
    (cachePatterns.find?
        (fun q => hasInfix q.toList (lowerStr (strOfPath p)).toList) = none →
      env.isFile p = true → ∀ n, env.sizeBytes p = some n →
      (n : ℚ) / 1048576 > cfg.maxFileSizeMB →
      canBackup env cfg p = (false, some .tooLarge)) ∧
    (cachePatterns.find?
        (fun q => hasInfix q.toList (lowerStr (strOfPath p)).toList) = none →
      env.isFile p = true → ∀ n, env.sizeBytes p = some n →
      ¬ ((n : ℚ) / 1048576 > cfg.maxFileSizeMB) →
      lowerStr (psuffix p) ∈ excludedExtensions →
      canBackup env cfg p = (false, some (.excludedExtension (psuffix p)))) := by
  refine ⟨?_, ?_, ?_⟩
  · intro pat h
    have hp := isPureConfig_cache env cfg.maxFileSizeMB p pat h
    rw [canBackup_of_pure_false env cfg p (by rw [hp]), hp]
  · intro hc hf n hs hn
    have hp := isPureConfig_tooLarge env cfg.maxFileSizeMB p n hc hf hs hn
    rw [canBackup_of_pure_false env cfg p (by rw [hp]), hp]
  · intro hc hf n hs hn he
    have hp := isPureConfig_ext env cfg.maxFileSizeMB p n hc hf hs hn he
    rw [canBackup_of_pure_false env cfg p (by rw [hp]), hp]

/-- A concrete environment for the closed instances below (everything
exists, every path is a 15 MiB file, no globs configured). -/
def cEnv : Env :=
  { home := ⟨true, ["home", "u"]⟩
    xdg := ⟨true, ["home", "u", ".config"]⟩
    resolve := id
    pexists := fun _ => true
    isFile := fun _ => true
    isDir := fun _ => false
    sizeBytes := fun _ => some (15 * 1048576)
    isBinaryPlist := fun _ => false
    readText := fun _ => .ok []
    mkdirRes := fun _ => .ok ()
    writeRes := fun _ => .ok ()
    copyRes := fun _ _ => .ok ()
    tree := fun _ => .node [] []
    plistBackup := fun _ _ => ⟨.success, none, none⟩
    fnmatch := fun _ _ => false }

def logFilePath : PPath := ⟨true, ["Users", "me", "Library", "Logs", "app.log"]⟩

/-- **C6** witness: a 15 MiB `.log` file under `/Users/me/Library/Logs/`
is rejected citing the `/logs/` substring, with the default 10 MiB
maximum in force and the size oracle reporting 15 MiB. -/
theorem c6_witness :
    canBackup cEnv defaultSecCfg logFilePath
        = (false, some (.cachePattern "/logs/")) ∧
    defaultSecCfg.maxFileSizeMB = 10 ∧
    cEnv.sizeBytes logFilePath = some (15 * 1048576) := by
  refine ⟨?_, by decide, by decide⟩
  exact (c6_can_backup_order cEnv defaultSecCfg logFilePath).1 "/logs/" (by decide)

/-! ## ConfigFilter load fallback (C8) -/

/-- **C8**: when `config-patterns.yaml` is *missing*, construction
falls back to the built-in default rule set; but when the document is
*malformed* (`yaml.YAMLError`/`OSError`), `_load_patterns` assigns
`self._patterns = {}` — despite its own comment "Fail gracefully with
minimal defaults" — so `_build_lookup_sets` produces no rules at all
(empty safe/hard-exclude sets), not the built-in defaults the claim
describes. Construction indeed does not fail in either case, but the
two outcomes differ. -/
theorem c8_malformed_load_no_defaults :
    buildLookupSets (loadPatterns .malformed) = buildLookupSets emptyPatternsDoc ∧
    (buildLookupSets (loadPatterns .malformed)).safeExtensions = [] ∧
    (buildLookupSets (loadPatterns .malformed)).hardExcludeExtensions = [] ∧
    (buildLookupSets (loadPatterns .malformed)).hardExcludePatterns = [] ∧
    (buildLookupSets (loadPatterns .malformed)).maxFileSize = 1048576 ∧
    (buildLookupSets (loadPatterns .missing)).safeExtensions
      = [".json", ".yaml", ".yml", ".toml", ".plist"] ∧
    (buildLookupSets (loadPatterns .missing)).hardExcludeExtensions
      = [".dylib", ".so", ".sqlite", ".db"] ∧
    buildLookupSets (loadPatterns .malformed) ≠ buildLookupSets (loadPatterns .missing) := by
  refine ⟨by decide, by decide, by decide, by decide, by decide, by decide, by decide, by decide⟩

/-! ## PathGuard and the traversal-reject branch (C1) -/

/-- **C1**: `safe_join` raises `PathTraversalError` whenever the
relative path is absolute or contains a `..` segment, and whenever the
resolved `base/rel` does not lie inside the resolved base; and every
`backup_file` / `backup_directory` call whose destination is rejected
this way returns status `error` (≠ `success`) carrying the error
message, leaves `self.results` untouched, and performs no filesystem
operation whatsoever (so nothing is created, inside or outside the
output root). -/
theorem c1_safe_join_rejects_traversal
    (R : PPath → PPath) (base rel : PPath)
    (env : Env) (ch : PPath → Bool) (cf : CFOracle) (cfg : Cfg) (st : BState)
    (source : PPath) (rd : String) (fs : Option Bool) (tier : String)
    (ep : List String) :
    (rel.absolute = true ∨ rel.parts.contains ".." = true →
      ∃ e, safeJoin R base rel = .error e) ∧
    (isRelativeTo (R (pjoin base rel)) (R base) = false →
      ∃ e, safeJoin R base rel = .error e) ∧
    (∀ e, safeJoin env.resolve cfg.outputDir (parsePath rd) = .error e →
      (backupFile env ch cf cfg st source rd fs tier).1.status = .error ∧
      (backupFile env ch cf cfg st source rd fs tier).1.errors = [e] ∧
      (backupFile env ch cf cfg st source rd fs tier).2.1 = st ∧
      (backupFile env ch cf cfg st source rd fs tier).2.2 = [] ∧
      (backupDirectory env ch cf cfg st source rd fs tier ep).1.status = .error ∧
      (backupDirectory env ch cf cfg st source rd fs tier ep).1.errors = [e] ∧
      (backupDirectory env ch cf cfg st source rd fs tier ep).2.1 = st ∧
      (backupDirectory env ch cf cfg st source rd fs tier ep).2.2 = []) := by
  refine ⟨?_, ?_, ?_⟩
  · intro h
    have hv : validateRelativePath rel = false := by
      rcases h with h | h
      · simp [validateRelativePath, h]
      · have h' : ".." ∈ rel.parts := by simpa using h
        simp [validateRelativePath, h']
    simp [safeJoin, hv]
  · intro h
    by_cases hv : validateRelativePath rel
    · simp [safeJoin, hv, h]
    · simp [safeJoin, hv]
  · intro e he
    refine ⟨?_, ?_, ?_, ?_, ?_, ?_, ?_, ?_⟩ <;>
      simp [backupFile, backupDirectory, he, traversalResult, setError, mkBase]

/-- A concrete state and app-free configuration for the closed
instances. -/
def cCfg : Cfg :=
  { outputDir := ⟨true, ["out"]⟩, includeSecrets := false
    normalizeFlag := true, secCfg := defaultSecCfg, rules := [] }

def cCfo : CFOracle :=
  { file := fun _ => (true, "ok"), dir := fun _ => (true, "ok")
    recurse := fun _ => true }

/-- **C1** witness: the destination `"../../etc/passwd"` is rejected by
`safe_join` (its parse contains `..`), and the corresponding
`backup_file` call returns `error`, appends nothing and writes
nothing. -/
theorem c1_witness :
    (∃ e, safeJoin cEnv.resolve cCfg.outputDir (parsePath "../../etc/passwd")
        = .error e) ∧
    (backupFile cEnv (fun _ => true) cCfo cCfg ⟨[]⟩ ⟨true, ["home", "u", ".zshrc"]⟩
        "../../etc/passwd" none "hints").1.status = .error ∧
    (backupFile cEnv (fun _ => true) cCfo cCfg ⟨[]⟩ ⟨true, ["home", "u", ".zshrc"]⟩
        "../../etc/passwd" none "hints").2.1 = ⟨[]⟩ ∧
    (backupFile cEnv (fun _ => true) cCfo cCfg ⟨[]⟩ ⟨true, ["home", "u", ".zshrc"]⟩
        "../../etc/passwd" none "hints").2.2 = [] := by
  have h := c1_safe_join_rejects_traversal cEnv.resolve cCfg.outputDir
    (parsePath "../../etc/passwd") cEnv (fun _ => true) cCfo cCfg ⟨[]⟩
    ⟨true, ["home", "u", ".zshrc"]⟩ "../../etc/passwd" none "hints" []
  obtain ⟨e, he⟩ := h.1 (Or.inr (by decide))
  have h3 := h.2.2 e he
  exact ⟨⟨e, he⟩, h3.1, h3.2.2.1, h3.2.2.2.1⟩

/-! ## Result-ledger bookkeeping (C10) -/

/-- **C10**: a `backup_file` / `backup_directory` call that passes
destination validation appends exactly one result — its own return
value — to `self.results`; a call rejected with `PathTraversalError`
returns status `error` with a non-empty error list but appends nothing,
so it is invisible to `get_summary` (whose counts are over
`self.results`). -/
theorem c10_results_append (env : Env) (ch : PPath → Bool) (cf : CFOracle)
    (cfg : Cfg) (st : BState) (source : PPath) (rd : String)
    (fs : Option Bool) (tier : String) (ep : List String) :
    (∀ d, safeJoin env.resolve cfg.outputDir (parsePath rd) = .ok d →
      (backupFile env ch cf cfg st source rd fs tier).2.1.results
          = st.results ++ [(backupFile env ch cf cfg st source rd fs tier).1] ∧
      (backupDirectory env ch cf cfg st source rd fs tier ep).2.1.results
          = st.results ++ [(backupDirectory env ch cf cfg st source rd fs tier ep).1]) ∧
    (∀ e, safeJoin env.resolve cfg.outputDir (parsePath rd) = .error e →
      (backupFile env ch cf cfg st source rd fs tier).2.1 = st ∧
      (backupFile env ch cf cfg st source rd fs tier).1.status = .error ∧
      (backupFile env ch cf cfg st source rd fs tier).1.errors ≠ [] ∧
      (backupDirectory env ch cf cfg st source rd fs tier ep).2.1 = st ∧
      (backupDirectory env ch cf cfg st source rd fs tier ep).1.status = .error ∧
      (backupDirectory env ch cf cfg st source rd fs tier ep).1.errors ≠ [] ∧
      getSummary cfg (backupFile env ch cf cfg st source rd fs tier).2.1
          = getSummary cfg st) := by
  constructor
  · intro d hd
    constructor
    · unfold backupFile
      rw [hd]
      dsimp only
      repeat' split
      all_goals simp [push]
    · unfold backupDirectory
      rw [hd]
      dsimp only
      repeat' split
      all_goals simp [push]
  · intro e he
    refine ⟨?_, ?_, ?_, ?_, ?_, ?_, ?_⟩ <;>
      simp [backupFile, backupDirectory, he, traversalResult, setError, mkBase,
        getSummary]

/-- **C10** witness: a validated call appends its result (length grows
by one), a rejected call leaves the ledger and the summary unchanged. -/
theorem c10_witness :
    (backupFile cEnv (fun _ => true) cCfo cCfg ⟨[]⟩ ⟨true, ["home", "u", ".zshrc"]⟩
        "shell/zshrc" none "hints").2.1.results.length = 1 ∧
    getSummary cCfg (backupFile cEnv (fun _ => true) cCfo cCfg ⟨[]⟩
        ⟨true, ["home", "u", ".zshrc"]⟩ "../../etc/passwd" none "hints").2.1
      = getSummary cCfg ⟨[]⟩ := by
  have h := c10_results_append cEnv (fun _ => true) cCfo cCfg ⟨[]⟩
    ⟨true, ["home", "u", ".zshrc"]⟩ "shell/zshrc" none "hints" []
  have h2 := c10_results_append cEnv (fun _ => true) cCfo cCfg ⟨[]⟩
    ⟨true, ["home", "u", ".zshrc"]⟩ "../../etc/passwd" none "hints" []
  constructor
  · have := (h.1 ⟨true, ["out", "shell", "zshrc"]⟩ (by rfl)).1
    rw [this]
    simp
  · exact (h2.2 "Invalid relative path: ../../etc/passwd" (by rfl)).2.2.2.2.2.2

/-- **C5** witness: a 21-character value keeps first-8 + `...` + last-4,
and its truncation does not contain the full value. -/
theorem c5_witness :
    truncList 20 "abcdefghijklmnopqrstu".toList = "abcdefgh...rstu".toList ∧
    ¬ "abcdefghijklmnopqrstu".toList
        <:+: truncList 20 "abcdefghijklmnopqrstu".toList := by
  have h := c5_truncate_amended "abcdefghijklmnopqrstu".toList
  refine ⟨?_, h.2.2.2 (by decide)⟩
  rw [h.1 (by decide)]
  decide

/-! ## Hints-tier trust (C3) -/

theorem resolveAndAdd_nofilter_congr (env : Env) (cf cf' : CFOracle)
    (isXdg : Bool) (m : List (String × PPath)) (rel : String) :
    resolveAndAddTierPath env cf false isXdg m rel
      = resolveAndAddTierPath env cf' false isXdg m rel := rfl

theorem hintsMapOf_congr (env : Env) (cf cf' : CFOracle)
    (h : Option TierInput) : hintsMapOf env cf h = hintsMapOf env cf' h := by
  unfold hintsMapOf
  have e1 : resolveAndAddTierPath env cf false false
      = resolveAndAddTierPath env cf' false false := by
    funext m rel; exact resolveAndAdd_nofilter_congr env cf cf' false m rel
  have e2 : resolveAndAddTierPath env cf false true
      = resolveAndAddTierPath env cf' false true := by
    funext m rel; exact resolveAndAdd_nofilter_congr env cf cf' true m rel
  rw [e1, e2]

theorem merge_hintsPaths (env : Env) (cfo : CFOracle)
    (hi ci li : Option TierInput) (an : String) (bid : Option String) :
    (mergeDiscoveryResults env cfo hi ci li an bid).hintsPaths
      = sortPaths ((hintsMapOf env cfo hi).map (·.2)) := rfl

theorem merge_conventionsPaths (env : Env) (cfo : CFOracle)
    (hi ci li : Option TierInput) (an : String) (bid : Option String) :
    (mergeDiscoveryResults env cfo hi ci li an bid).conventionsPaths
      = sortPaths ((convMapOf env cfo hi ci).map (·.2)) := rfl

theorem merge_llmPaths (env : Env) (cfo : CFOracle)
    (hi ci li : Option TierInput) (an : String) (bid : Option String) :
    (mergeDiscoveryResults env cfo hi ci li an bid).llmPaths
      = sortPaths ((llmMapOf env cfo hi ci li).map (·.2)) := rfl

theorem foldl_preserve {α β : Type} (f : β → α → β) (P : β → Prop)
    (hf : ∀ b a, P b → P (f b a)) :
    ∀ (l : List α) (b : β), P b → P (l.foldl f b) := by
  intro l
  induction l with
  | nil => intro b hb; exact hb
  | cons x t ih => intro b hb; exact ih _ (hf b x hb)

/-- Entries the filtered insertion keeps: when the stored path is a
file, the ConfigFilter accepted it. -/
def ConvKept (env : Env) (cf : CFOracle) (m : List (String × PPath)) : Prop :=
  ∀ e ∈ m, env.isFile e.2 = true → (cf.file e.2).1 = true

theorem resolveAndAdd_filter_keeps (env : Env) (cf : CFOracle) (isXdg : Bool)
    (m : List (String × PPath)) (rel : String) (h : ConvKept env cf m) :
    ConvKept env cf (resolveAndAddTierPath env cf true isXdg m rel) := by
  intro e he
  unfold resolveAndAddTierPath at he
  dsimp only at he
  repeat' split at he
  all_goals
    first
    | exact h e he
    | (rcases List.mem_append.mp he with h1 | h1
       · exact h e h1
       · intro hf
         simp only [List.mem_singleton] at h1
         subst h1
         simp_all)

theorem addConvPath_keeps (env : Env) (cf : CFOracle)
    (hintsMap : List (String × PPath)) (isXdg : Bool)
    (m : List (String × PPath)) (rel : String) (h : ConvKept env cf m) :
    ConvKept env cf (addConvPath env cf hintsMap isXdg m rel) := by
  unfold addConvPath
  dsimp only
  repeat' split
  all_goals first
    | exact h
    | exact resolveAndAdd_filter_keeps env cf isXdg m rel h

theorem convMapOf_keeps (env : Env) (cf : CFOracle)
    (hi ci : Option TierInput) : ConvKept env cf (convMapOf env cf hi ci) := by
  unfold convMapOf
  apply foldl_preserve _ _ (fun b a hb => addConvPath_keeps env cf _ true b a hb)
  apply foldl_preserve _ _ (fun b a hb => addConvPath_keeps env cf _ false b a hb)
  intro e he
  simp at he

/-- **C3**: paths whose discovery tier is `hints` bypass the
ConfigTypeFilter but not the ExclusionPolicy. (1) `backup_file` with
tier `hints` never consults the ConfigFilter: its outcome is identical
for any two filter oracles. (2) The ExclusionPolicy check still runs:
an existing hints-tier file with extension `.sqlite` (no cache-substring
hit, size within bounds) is skipped with the hard-excluded-extension
reason. (3) In the merge, the hints tier map is built without consulting
the filter (identical for any two oracles), while (4) every *file* kept
in the conventions tier list passed `ConfigFilter.is_config_file`. -/
theorem c3_hints_tier_trust (env : Env) (ch : PPath → Bool)
    (cf cf' : CFOracle) (cfg : Cfg) (st : BState) (source : PPath)
    (rd : String) (fs : Option Bool) (d : PPath) (n : Nat)
    (hi ci li : Option TierInput) (an : String) (bid : Option String)
    (hOk : safeJoin env.resolve cfg.outputDir (parsePath rd) = .ok d)
    (hEx : env.pexists source = true)
    (hF : env.isFile source = true)
    (hCache : cachePatterns.find?
        (fun q => hasInfix q.toList (lowerStr (strOfPath source)).toList) = none)
    (hS : env.sizeBytes source = some n)
    (hNs : ¬ ((n : ℚ) / 1048576 > cfg.secCfg.maxFileSizeMB))
    (hSuf : lowerStr (psuffix source) = ".sqlite") :
    backupFile env ch cf cfg st source rd fs "hints"
        = backupFile env ch cf' cfg st source rd fs "hints" ∧
    (backupFile env ch cf cfg st source rd fs "hints").1.status = .skipped ∧
    (backupFile env ch cf cfg st source rd fs "hints").1.reason
        = some (.excludedExtension (psuffix source)) ∧
    (mergeDiscoveryResults env cf hi ci li an bid).hintsPaths
        = (mergeDiscoveryResults env cf' hi ci li an bid).hintsPaths ∧
    (∀ p ∈ (mergeDiscoveryResults env cf hi ci li an bid).conventionsPaths,
      env.isFile p = true → (cf.file p).1 = true) := by
  have ht : tierIsFiltered "hints" = false := by decide
  have hmem : lowerStr (psuffix source) ∈ excludedExtensions := by
    rw [hSuf]; decide
  have hpure := isPureConfig_ext env cfg.secCfg.maxFileSizeMB source n hCache hF
    hS hNs hmem
  have hcb := canBackup_of_pure_false env cfg.secCfg source (by rw [hpure])
  refine ⟨?_, ?_, ?_, ?_, ?_⟩
  · unfold backupFile
    rw [hOk]
    dsimp only
    simp [ht]
  · unfold backupFile
    rw [hOk]
    dsimp only
    simp [ht, hEx, hcb, hpure, setSkip]
  · unfold backupFile
    rw [hOk]
    dsimp only
    simp [ht, hEx, hcb, hpure, setSkip]
  · rw [merge_hintsPaths, merge_hintsPaths, hintsMapOf_congr env cf cf' hi]
  · intro p hp
    rw [merge_conventionsPaths] at hp
    have hperm := sortBy_perm
      (fun a b => strLe (strOfPath a) (strOfPath b))
      ((convMapOf env cf hi ci).map (·.2))
    have hp2 : p ∈ (convMapOf env cf hi ci).map (·.2) := hperm.mem_iff.mp hp
    obtain ⟨e, he, hesnd⟩ := List.mem_map.mp hp2
    intro hfile
    subst hesnd
    exact convMapOf_keeps env cf hi ci e he hfile

/-- **C3** witness: a hints-declared `.sqlite` file is skipped with the
excluded-extension reason, identically for two different filter
oracles (one accepting everything, one rejecting everything). -/
def cEnvSq : Env := { cEnv with sizeBytes := fun _ => some 100 }

def cCfoNo : CFOracle :=
  { file := fun _ => (false, "no"), dir := fun _ => (false, "no")
    recurse := fun _ => false }

theorem c3_witness :
    backupFile cEnvSq (fun _ => true) cCfo cCfg ⟨[]⟩
        ⟨true, ["home", "u", "app.sqlite"]⟩ "a/app.sqlite" none "hints"
      = backupFile cEnvSq (fun _ => true) cCfoNo cCfg ⟨[]⟩
        ⟨true, ["home", "u", "app.sqlite"]⟩ "a/app.sqlite" none "hints" ∧
    (backupFile cEnvSq (fun _ => true) cCfo cCfg ⟨[]⟩
        ⟨true, ["home", "u", "app.sqlite"]⟩ "a/app.sqlite" none "hints").1.status
      = .skipped ∧
    (backupFile cEnvSq (fun _ => true) cCfo cCfg ⟨[]⟩
        ⟨true, ["home", "u", "app.sqlite"]⟩ "a/app.sqlite" none "hints").1.reason
      = some (.excludedExtension ".sqlite") := by
  have h := c3_hints_tier_trust cEnvSq (fun _ => true) cCfo cCfoNo cCfg ⟨[]⟩
    ⟨true, ["home", "u", "app.sqlite"]⟩ "a/app.sqlite" none
    ⟨true, ["out", "a", "app.sqlite"]⟩ 100 none none none "x" none
    (by rfl) (by decide) (by decide) (by decide) (by decide)
    (by
      rw [← sizeExceedsMB_iff]
      decide)
    (by decide)
  exact ⟨h.1, h.2.1, h.2.2.1⟩

/-! ## Permission normalization (C9) -/

/-- **C9** counterexample: the claim says a chmod failure during
permission normalization downgrades the item's status to `partial`.
It does not: with every chmod failing, a successfully written file
still reports `success` — the failure is swallowed entirely. -/
theorem c9_counterexample :
    (backupFile cEnvSq (fun _ => false) cCfo cCfg ⟨[]⟩
        ⟨true, ["home", "u", ".zshrc"]⟩ "shell/zshrc" none "hints").1.status
      = .success ∧
    FSOp.chmod ⟨true, ["out", "shell", "zshrc"]⟩ FILE_MODE false
      ∈ (backupFile cEnvSq (fun _ => false) cCfo cCfg ⟨[]⟩
        ⟨true, ["home", "u", ".zshrc"]⟩ "shell/zshrc" none "hints").2.2 ∧
    (backupFile cEnvSq (fun _ => false) cCfo cCfg ⟨[]⟩
        ⟨true, ["home", "u", ".zshrc"]⟩ "shell/zshrc" none "hints").1.status
      ≠ .partialR := by
  refine ⟨by decide, by decide, by decide⟩

theorem copyFileSafe_fst (env : Env) (ch ch' : PPath → Bool) (nf : Bool)
    (src dst : PPath) :
    (copyFileSafe env ch nf src dst).1 = (copyFileSafe env ch' nf src dst).1 := by
  unfold copyFileSafe
  cases env.mkdirRes (pparent dst) with
  | error e => rfl
  | ok u =>
    dsimp only
    cases env.copyRes src dst with
    | error e => rfl
    | ok u => rfl

mutual

theorem walkChmodOps_modes (ch : PPath → Bool) :
    ∀ (root : PPath) (t : DirTree) (op : FSOp), op ∈ walkChmodOps ch root t →
      (∃ q ok, op = .chmod q FILE_MODE ok) ∨ (∃ q ok, op = .chmod q DIR_MODE ok)
  | root, .node files subs, op, hop => by
    rw [walkChmodOps] at hop
    rcases List.mem_append.mp hop with h1 | h1
    · rcases List.mem_append.mp h1 with h2 | h2
      · obtain ⟨s, _, hs⟩ := List.mem_map.mp h2
        exact Or.inr ⟨_, _, hs.symm⟩
      · obtain ⟨f, _, hf⟩ := List.mem_map.mp h2
        exact Or.inl ⟨_, _, hf.symm⟩
    · exact walkChmodSubs_modes ch root subs op h1

theorem walkChmodSubs_modes (ch : PPath → Bool) :
    ∀ (root : PPath) (l : List (String × DirTree)) (op : FSOp),
      op ∈ walkChmodSubs ch root l →
      (∃ q ok, op = .chmod q FILE_MODE ok) ∨ (∃ q ok, op = .chmod q DIR_MODE ok)
  | _, [], _, hop => by rw [walkChmodSubs] at hop; cases hop
  | root, (name, t) :: rest, op, hop => by
    rw [walkChmodSubs] at hop
    rcases List.mem_append.mp hop with h1 | h1
    · exact walkChmodOps_modes ch (childPath root name) t op h1
    · exact walkChmodSubs_modes ch root rest op h1

end

/-- **C9** amended: after a successful write, permission normalization
attempts `0o600` on the file target (and, for directories, `0o700` on
the directory and recursively `0o700`/`0o600` on its contents — every
chmod it attempts uses one of those two modes); it is best-effort: a
chmod failure is swallowed inside `normalize_permissions`, so the item's
result and the recorded ledger are *identical* whatever the chmod
outcomes — the status is neither escalated to `error` nor downgraded to
`partial` (the claimed downgrade never happens). -/
theorem c9_normalize_amended (env : Env) (ch ch' : PPath → Bool)
    (target : PPath) (cf : CFOracle) (cfg : Cfg) (st : BState)
    (source : PPath) (rd : String) (fs : Option Bool) (tier : String) :
    (env.pexists target = true → env.isFile target = true →
      normalizePermissionsOps env ch target
        = [.chmod target FILE_MODE (ch target)]) ∧
    (env.pexists target = true → env.isFile target = false →
      env.isDir target = true → ch target = true →
      normalizePermissionsOps env ch target
        = .chmod target DIR_MODE true
            :: walkChmodOps ch target (env.tree target)) ∧
    (∀ op ∈ normalizePermissionsOps env ch target,
      (∃ q ok, op = .chmod q FILE_MODE ok) ∨
        (∃ q ok, op = .chmod q DIR_MODE ok)) ∧
    ((backupFile env ch cf cfg st source rd fs tier).1
        = (backupFile env ch' cf cfg st source rd fs tier).1 ∧
      (backupFile env ch cf cfg st source rd fs tier).2.1
        = (backupFile env ch' cf cfg st source rd fs tier).2.1) := by
  refine ⟨?_, ?_, ?_, ?_⟩
  · intro h1 h2
    simp [normalizePermissionsOps, h1, h2]
  · intro h1 h2 h3 h4
    simp [normalizePermissionsOps, h1, h2, h3, h4]
  · intro op hop
    unfold normalizePermissionsOps at hop
    repeat' split at hop
    · cases hop
    · simp only [List.mem_singleton] at hop
      exact Or.inl ⟨_, _, hop⟩
    · rcases List.mem_cons.mp hop with h1 | h1
      · exact Or.inr ⟨_, _, h1⟩
      · exact walkChmodOps_modes ch target (env.tree target) op h1
    · simp only [List.mem_singleton] at hop
      exact Or.inr ⟨_, _, hop⟩
    · cases hop
  · have hc := copyFileSafe_fst env ch ch' cfg.normalizeFlag source
    unfold backupFile
    cases safeJoin env.resolve cfg.outputDir (parsePath rd) with
    | error e => exact ⟨rfl, rfl⟩
    | ok dest =>
      dsimp only
      rw [hc dest]
      cases env.mkdirRes (pparent dest) <;>
        cases env.readText dest <;>
          cases env.writeRes dest <;>
            refine ⟨?_, ?_⟩ <;>
              first
                | rfl
                | (dsimp only
                   first
                     | rfl
                     | simp only [apply_ite (Prod.fst :
                           BResult × BState × List FSOp → BResult),
                         apply_ite (fun x : BResult × BState × List FSOp => x.2.1)])

/-- **C9** witness: concrete instances of the normalization facts —
a file target yields exactly one attempted `0o600` chmod (here a failing
one), and a concrete `backup_file` run has the same result and ledger
under all-failing and all-succeeding chmod oracles. -/
theorem c9_witness :
    normalizePermissionsOps cEnvSq (fun _ => false) ⟨true, ["out", "f"]⟩
      = [.chmod ⟨true, ["out", "f"]⟩ FILE_MODE false] ∧
    (backupFile cEnvSq (fun _ => false) cCfo cCfg ⟨[]⟩
        ⟨true, ["home", "u", ".zshrc"]⟩ "shell/zshrc" none "hints").1
      = (backupFile cEnvSq (fun _ => true) cCfo cCfg ⟨[]⟩
        ⟨true, ["home", "u", ".zshrc"]⟩ "shell/zshrc" none "hints").1 := by
  have h := c9_normalize_amended cEnvSq (fun _ => false) (fun _ => true)
    ⟨true, ["out", "f"]⟩ cCfo cCfg ⟨[]⟩ ⟨true, ["home", "u", ".zshrc"]⟩
    "shell/zshrc" none "hints"
  exact ⟨h.1 (by decide) (by decide), h.2.2.2.1⟩

/-! ## Tier-path dedup invariant (C7) -/

/-- Invariant of a tier path map: each stored key is the dedup
normalization of its stored path, and keys are pairwise distinct. -/
def TierMapInv (env : Env) (m : List (String × PPath)) : Prop :=
  (∀ e ∈ m, e.1 = normDedup env e.2) ∧ m.Pairwise (fun a b => a.1 ≠ b.1)

theorem tierInsert_inv (env : Env) (m : List (String × PPath)) (key : String)
    (v : PPath) (hk : key = normDedup env v)
    (habs : ¬ m.any (fun e => e.1 == key) = true) (h : TierMapInv env m) :
    TierMapInv env (m ++ [(key, v)]) := by
  constructor
  · intro e he
    rcases List.mem_append.mp he with h1 | h1
    · exact h.1 e h1
    · simp only [List.mem_singleton] at h1
      subst h1
      exact hk
  · refine List.pairwise_append.mpr ⟨h.2, by simp, ?_⟩
    intro a ha b hb
    simp only [List.mem_singleton] at hb
    subst hb
    intro hcontra
    apply habs
    rw [List.any_eq_true]
    exact ⟨a, ha, by simp [hcontra]⟩

theorem resolveAndAdd_inv (env : Env) (cf : CFOracle) (af isXdg : Bool)
    (m : List (String × PPath)) (rel : String) (h : TierMapInv env m) :
    TierMapInv env (resolveAndAddTierPath env cf af isXdg m rel) := by
  unfold resolveAndAddTierPath
  dsimp only
  repeat' split
  all_goals first
    | exact h
    | exact tierInsert_inv env m _ _ rfl (by assumption) h

theorem addConvPath_inv (env : Env) (cf : CFOracle)
    (hintsMap : List (String × PPath)) (isXdg : Bool)
    (m : List (String × PPath)) (rel : String) (h : TierMapInv env m) :
    TierMapInv env (addConvPath env cf hintsMap isXdg m rel) := by
  unfold addConvPath
  dsimp only
  repeat' split
  all_goals first
    | exact h
    | exact resolveAndAdd_inv env cf true isXdg m rel h

theorem addLlmPath_inv (env : Env) (cf : CFOracle)
    (hintsMap convMap : List (String × PPath)) (isXdg : Bool)
    (m : List (String × PPath)) (rel : String) (h : TierMapInv env m) :
    TierMapInv env (addLlmPath env cf hintsMap convMap isXdg m rel) := by
  unfold addLlmPath
  dsimp only
  repeat' split
  all_goals first
    | exact h
    | exact resolveAndAdd_inv env cf true isXdg m rel h

theorem tierMapInv_nil (env : Env) : TierMapInv env [] := by
  constructor
  · intro e he; cases he
  · exact List.Pairwise.nil

theorem hintsMapOf_inv (env : Env) (cf : CFOracle) (hi : Option TierInput) :
    TierMapInv env (hintsMapOf env cf hi) := by
  unfold hintsMapOf
  apply foldl_preserve _ _ (fun b a hb => resolveAndAdd_inv env cf false true b a hb)
  apply foldl_preserve _ _ (fun b a hb => resolveAndAdd_inv env cf false false b a hb)
  exact tierMapInv_nil env

theorem convMapOf_inv (env : Env) (cf : CFOracle) (hi ci : Option TierInput) :
    TierMapInv env (convMapOf env cf hi ci) := by
  unfold convMapOf
  apply foldl_preserve _ _ (fun b a hb => addConvPath_inv env cf _ true b a hb)
  apply foldl_preserve _ _ (fun b a hb => addConvPath_inv env cf _ false b a hb)
  exact tierMapInv_nil env

theorem llmMapOf_inv (env : Env) (cf : CFOracle) (hi ci li : Option TierInput) :
    TierMapInv env (llmMapOf env cf hi ci li) := by
  unfold llmMapOf
  apply foldl_preserve _ _ (fun b a hb => addLlmPath_inv env cf _ _ true b a hb)
  apply foldl_preserve _ _ (fun b a hb => addLlmPath_inv env cf _ _ false b a hb)
  exact tierMapInv_nil env

theorem tierMap_values_pairwise (env : Env) (m : List (String × PPath))
    (h : TierMapInv env m) :
    (m.map (·.2)).Pairwise (fun a b => normDedup env a ≠ normDedup env b) := by
  rw [List.pairwise_map]
  apply h.2.imp_of_mem
  intro a b ha hb hne hcontra
  apply hne
  rw [h.1 a ha, h.1 b hb, hcontra]

theorem sortPaths_pairwise_dedup (env : Env) (l : List PPath)
    (h : l.Pairwise (fun a b => normDedup env a ≠ normDedup env b)) :
    (sortPaths l).Pairwise (fun a b => normDedup env a ≠ normDedup env b) := by
  have hperm := sortBy_perm (fun a b => strLe (strOfPath a) (strOfPath b)) l
  refine (List.Perm.pairwise_iff ?_ hperm).mpr h
  intro a b hab hc
  exact hab hc.symm

/-- **C7**: in every merged `DiscoveryResult`, no tier path list
contains two entries whose symlink-resolved forms compare equal after
lowercasing — the dedup key is exactly `str(path.resolve()).lower()`
(`normDedup`), so case-differing spellings of one resolved location
contribute a single entry per tier. -/
theorem c7_tier_paths_dedup (env : Env) (cfo : CFOracle)
    (hi ci li : Option TierInput) (an : String) (bid : Option String) :
    (∀ p, normDedup env p = lowerStr (strOfPath (env.resolve p))) ∧
    ((mergeDiscoveryResults env cfo hi ci li an bid).hintsPaths).Pairwise
        (fun a b => normDedup env a ≠ normDedup env b) ∧
    ((mergeDiscoveryResults env cfo hi ci li an bid).conventionsPaths).Pairwise
        (fun a b => normDedup env a ≠ normDedup env b) ∧
    ((mergeDiscoveryResults env cfo hi ci li an bid).llmPaths).Pairwise
        (fun a b => normDedup env a ≠ normDedup env b) := by
  refine ⟨fun p => rfl, ?_, ?_, ?_⟩
  · rw [merge_hintsPaths]
    exact sortPaths_pairwise_dedup env _
      (tierMap_values_pairwise env _ (hintsMapOf_inv env cfo hi))
  · rw [merge_conventionsPaths]
    exact sortPaths_pairwise_dedup env _
      (tierMap_values_pairwise env _ (convMapOf_inv env cfo hi ci))
  · rw [merge_llmPaths]
    exact sortPaths_pairwise_dedup env _
      (tierMap_values_pairwise env _ (llmMapOf_inv env cfo hi ci li))

/-! ## needs_followup (C2) -/

theorem merge_needs_spec (env : Env) (cfo : CFOracle)
    (hi ci li : Option TierInput) (an : String) (bid : Option String) :
    ((mergeDiscoveryResults env cfo hi ci li an bid).foundInHints = true →
      (mergeDiscoveryResults env cfo hi ci li an bid).needsLlmDiscovery = false) ∧
    ((mergeDiscoveryResults env cfo hi ci li an bid).foundInHints = false →
      ((mergeDiscoveryResults env cfo hi ci li an bid).needsLlmDiscovery = true ↔
        hasSettings (mergeDiscoveryResults env cfo hi ci li an bid) = false)) := by
  unfold mergeDiscoveryResults
  dsimp only
  cases hi <;> simp [hasSettings]

theorem discoverApp_eq_merge (env : Env) (cfo : CFOracle)
    (db : List (String × HintsEntry)) (an : String) (bid : Option String)
    (sc : Bool) :
    discoverApp env cfo db an bid sc
      = mergeDiscoveryResults env cfo
          ((getAppSettings db an bid).map (fun e => hintsToTierInput e.1 e.2))
          (if sc then none
            else some (convToTierInput (discoverFromConventions env an bid true)))
          none an bid := by
  unfold discoverApp
  rfl

theorem hasSettings_set_needs (r : DiscoveryResult) (b : Bool) :
    hasSettings { r with needsLlmDiscovery := b } = hasSettings r := rfl

theorem discoverStep_inv (env : Env) (cfo : CFOracle)
    (db : List (String × HintsEntry)) (skip : Bool)
    (acc : List DiscoveryResult × List UndiscoveredEntry) (app : AppRef)
    (h : ∀ r ∈ acc.1, r.needsLlmDiscovery = !hasSettings r) :
    ∀ r ∈ (discoverStep env cfo db skip acc app).1,
      r.needsLlmDiscovery = !hasSettings r := by
  unfold discoverStep
  dsimp only
  split
  · exact h
  · split
    case isTrue hset =>
      intro r hr
      rcases List.mem_append.mp hr with h1 | h1
      · exact h r h1
      · simp only [List.mem_singleton] at h1
        subst h1
        rw [hset]
        rw [discoverApp_eq_merge] at hset ⊢
        cases hfound : (mergeDiscoveryResults env cfo
            ((getAppSettings db app.name app.bundleId).map
              (fun e => hintsToTierInput e.1 e.2))
            (if false then none
              else some (convToTierInput
                (discoverFromConventions env app.name app.bundleId true)))
            none app.name app.bundleId).foundInHints
        · have hs := (merge_needs_spec env cfo _ _ _ _ _).2 hfound
          rw [hset] at hs
          simp only [Bool.not_true]
          simpa using hs
        · rw [(merge_needs_spec env cfo _ _ _ _ _).1 hfound]
          simp
    case isFalse hset =>
      intro r hr
      rcases List.mem_append.mp hr with h1 | h1
      · exact h r h1
      · simp only [List.mem_singleton] at h1
        subst h1
        rw [hasSettings_set_needs]
        simp only [Bool.not_eq_true] at hset
        rw [hset]
        rfl

theorem discoverAllApps_needs (env : Env) (cfo : CFOracle)
    (apps : List AppRef) (db : List (String × HintsEntry)) (skip : Bool) :
    ∀ r ∈ (discoverAllApps env cfo apps db skip).1,
      r.needsLlmDiscovery = !hasSettings r := by
  unfold discoverAllApps
  apply foldl_preserve (discoverStep env cfo db skip)
    (fun acc => ∀ r ∈ acc.1, r.needsLlmDiscovery = !hasSettings r)
    (fun b a hb => discoverStep_inv env cfo db skip b a hb)
  intro r hr
  cases hr

/-- **C2** counterexample: the claim says every result of
`discover_all_apps` with `found_in_hints` true has
`needs_llm_discovery` false. But for an app whose hints entry declares
no paths (and with nothing on disk for the conventions tier),
`discover_all_apps` re-flags the merged result: it returns a result
with `found_in_hints = true` *and* `needs_llm_discovery = true`. -/
def cEnvNone : Env :=
  { cEnv with pexists := fun _ => false, isFile := fun _ => false }

def cDb : List (String × HintsEntry) :=
  [("emptyapp", ⟨none, [], [], none, none, [], none⟩)]

theorem c2_counterexample :
    ((discoverAllApps cEnvNone cCfo [⟨"emptyapp", none⟩] cDb true).1.map
        (fun r => (r.foundInHints, r.needsLlmDiscovery))) = [(true, true)] := by
  decide

/-- **C2** amended: `merge_discovery_results` itself satisfies the
claimed invariant — `found_in_hints` forces `needs_llm_discovery`
false, and otherwise `needs_llm_discovery` holds exactly when no tier
produced anything (`has_settings` false). `discover_all_apps`, however,
overrides the flag: each result it returns satisfies
`needs_llm_discovery = not has_settings`, *regardless of*
`found_in_hints` — so a hints-found app without settings violates the
original invariant there. -/
theorem c2_needs_followup_amended (env : Env) (cfo : CFOracle)
    (hi ci li : Option TierInput) (an : String) (bid : Option String)
    (apps : List AppRef) (db : List (String × HintsEntry)) (skip : Bool) :
    ((mergeDiscoveryResults env cfo hi ci li an bid).foundInHints = true →
      (mergeDiscoveryResults env cfo hi ci li an bid).needsLlmDiscovery = false) ∧
    ((mergeDiscoveryResults env cfo hi ci li an bid).foundInHints = false →
      ((mergeDiscoveryResults env cfo hi ci li an bid).needsLlmDiscovery = true ↔
        hasSettings (mergeDiscoveryResults env cfo hi ci li an bid) = false)) ∧
    (∀ r ∈ (discoverAllApps env cfo apps db skip).1,
      r.needsLlmDiscovery = !hasSettings r) := by
  exact ⟨(merge_needs_spec env cfo hi ci li an bid).1,
    (merge_needs_spec env cfo hi ci li an bid).2,
    discoverAllApps_needs env cfo apps db skip⟩

/-- **C2** witness: the merge invariant at a concrete hints input, and
the `discover_all_apps` characterization at the concrete counterexample
run. -/
theorem c2_witness :
    (mergeDiscoveryResults cEnvNone cCfo
        (some ⟨[".x/config"], [], none, none, none, [], none, some "k", none⟩)
        none none "emptyapp" none).needsLlmDiscovery = false ∧
    ∀ r ∈ (discoverAllApps cEnvNone cCfo [⟨"emptyapp", none⟩] cDb true).1,
      r.needsLlmDiscovery = !hasSettings r := by
  constructor
  · exact (c2_needs_followup_amended cEnvNone cCfo
      (some ⟨[".x/config"], [], none, none, none, [], none, some "k", none⟩)
      none none "emptyapp" none [] cDb true).1 (by decide)
  · exact (c2_needs_followup_amended cEnvNone cCfo none none none "" none
      [⟨"emptyapp", none⟩] cDb true).2.2

end MacInventory
